import Mathlib

/-
Verification of the go-penguin HTTP router (a go-chi derivative).

The mux layer (Engine, ServeHTTP, routeHTTP, Use, Mount, NotFound,
MethodNotAllowed, handle, nextRoutePath, the mount handler) is embedded from
the mux source file. The routing tree, the match engine, the routing context
and the method registry live in files that are not part of the provided
sources; those parts are modelled from the specification (sections 3, 4.2,
4.3, 4.4, 4.5 of the spec) and every such definition carries a doc comment
beginning with: Modelled from the spec.

Conventions of the embedding:
  - handlers and middlewares are identified by natural numbers; the router
    never inspects a handler beyond selecting and invoking it, so handler
    identity is all the claims need;
  - Go panics are modelled as Except.error, so a panicking setup call
    returns an error and produces no new router state;
  - regular-expression matching is kept abstract as a Boolean oracle
    rx : String -> String -> Bool passed to the match engine; the claims
    never depend on a concrete regex semantics, only on the priority
    position of regex children;
  - strings are processed through their character lists so that every
    definition evaluates inside the kernel.
-/

set_option maxHeartbeats 1000000

namespace Penguin

/-! ## String helpers (character-list based, kernel computable) -/

/-- Splits a character list at every slash, keeping empty pieces. -/
def splitSlashAux : List Char → List Char → List String
  | [], acc => [String.mk acc.reverse]
  | c :: tl, acc =>
    if c = '/' then String.mk acc.reverse :: splitSlashAux tl []
    else splitSlashAux tl (c :: acc)

/-- Splits a character list at every slash. -/
def splitSlash (cs : List Char) : List String := splitSlashAux cs []

/-- Segments of a request path: the leading slash is dropped and the rest is
split at every slash, so "/" becomes [""] and "/a/b" becomes ["a", "b"]. -/
def pathSegs (path : String) : List String :=
  match path.data with
  | '/' :: tl => splitSlash tl
  | cs => splitSlash cs

/-- Joins path segments back with slashes; the unconsumed remainder bound by
a wildcard is the join of the remaining segments. -/
def joinPath : List String → String
  | [] => ""
  | [s] => s
  | s :: tl => s ++ "/" ++ joinPath tl

/-! ## Method registry

Modelled from the spec (section 3 and 4.1): the method registry file of the
repository is not among the provided sources. Bit positions follow the mux
source, which references mSTUB, mALL and the nine standard verb masks. -/

def mSTUB : Nat := 1
def mCONNECT : Nat := 2
def mDELETE : Nat := 4
def mGET : Nat := 8
def mHEAD : Nat := 16
def mOPTIONS : Nat := 32
def mPATCH : Nat := 64
def mPOST : Nat := 128
def mPUT : Nat := 256
def mTRACE : Nat := 512

/-- Union of the nine standard verb bits, excluding the stub bit. -/
def mALL : Nat :=
  mCONNECT + mDELETE + mGET + mHEAD + mOPTIONS + mPATCH + mPOST + mPUT + mTRACE

/-- The nine standard verb bits in registry order. -/
def methodBits : List Nat :=
  [mCONNECT, mDELETE, mGET, mHEAD, mOPTIONS, mPATCH, mPOST, mPUT, mTRACE]

/-- Modelled from the spec: the process-wide map from method name to mask,
pre-seeded with the standard HTTP verbs. -/
def methodMap : List (String × Nat) :=
  [("CONNECT", mCONNECT), ("DELETE", mDELETE), ("GET", mGET), ("HEAD", mHEAD),
   ("OPTIONS", mOPTIONS), ("PATCH", mPATCH), ("POST", mPOST), ("PUT", mPUT),
   ("TRACE", mTRACE)]

/-- Association-list lookup for the method map. -/
def lookupStr : List (String × Nat) → String → Option Nat
  | [], _ => Option.none
  | (k', v) :: tl, k => if k' = k then Option.some v else lookupStr tl k

/-! ## Route context (match state)

Modelled from the spec (section 3 and 4.5): the context file of the
repository is not among the provided sources, but the mux source reads and
writes the fields RoutePath, RouteMethod, URLParams, routeParams and
methodNotAllowed, which fixes the shape used here. -/

/-- Ordered parameter key list and parallel value list. -/
structure RouteParams where
  Keys : List String
  Values : List String
  deriving DecidableEq, Repr

/-- Pushes one binding onto the parameter stack; the most recently pushed
binding sits at the end of the lists. -/
def RouteParams.push (ps : RouteParams) (k v : String) : RouteParams :=
  ⟨ps.Keys ++ [k], ps.Values ++ [v]⟩

/-- Per-request match state. -/
structure Context where
  RoutePath : String
  RouteMethod : String
  URLParams : RouteParams
  routeParams : RouteParams
  methodNotAllowed : Bool
  deriving DecidableEq, Repr

/-- Modelled from the spec: Reset clears every field to its default for pool
reuse. -/
def Context.reset : Context := ⟨"", "", ⟨[], []⟩, ⟨[], []⟩, false⟩

/-! ## Pattern segments and the pattern parser

Modelled from the spec (section 4.2 and the pattern syntax of section 6).
Segments are typed whole pieces of a slash-delimited template. Placeholders
embedded inside an otherwise literal piece and a wildcard glued to a literal
are outside the modelled fragment and are treated as plain literals; no
claim exercises them. A wildcard piece ends the parse and any trailing
pieces are ignored, per the spec rule that the trailing-literal form is
informational only. -/

inductive Seg where
  | lit (s : String)
  | rex (name : String) (expr : String)
  | param (name : String)
  | wild
  deriving DecidableEq, Repr

/-- Parses one non-empty, non-wildcard piece of a pattern. -/
def parseSeg (p : String) : Except String Seg :=
  match p.data with
  | '{' :: tl =>
    match tl.reverse with
    | '}' :: innerRev =>
      let inner := innerRev.reverse
      if inner.contains '{' ∨ inner.contains '}' then
        Except.error "chi: regex placeholder must not contain braces"
      else
        match (String.mk inner).data.span (fun c => c ≠ ':') with
        | (nm, []) => Except.ok (Seg.param (String.mk nm))
        | (nm, _ :: ex) => Except.ok (Seg.rex (String.mk nm) (String.mk ex))
    | _ => Except.error "chi: unterminated placeholder"
  | _ => Except.ok (Seg.lit p)

/-- Parses the slash-split pieces of a pattern. An empty interior piece is
rejected; an empty final piece denotes a trailing slash; a wildcard piece
ends the parse. -/
def parsePieces : List String → Except String (List Seg)
  | [] => Except.ok []
  | [p] =>
    if p = "*" then Except.ok [Seg.wild]
    else if p = "" then Except.ok [Seg.lit ""]
    else do
      let s ← parseSeg p
      Except.ok [s]
  | p :: rest =>
    if p = "*" then Except.ok [Seg.wild]
    else if p = "" then Except.error "chi: empty route segment"
    else do
      let s ← parseSeg p
      let tl ← parsePieces rest
      Except.ok (s :: tl)

/-- Modelled from the spec: the pattern parser, template string to ordered
segment sequence or a parse failure. -/
def parsePattern (pattern : String) : Except String (List Seg) :=
  match pattern.data with
  | '/' :: tl => parsePieces (splitSlash tl)
  | _ => Except.error "chi: routing pattern must begin with a slash"

/-! ## Routing tree and router state

Modelled from the spec (section 3): the trie vertex owns child groups per
segment type (static children in a keyed list, regex children in insertion
order, at most one named-param child, at most one wildcard child), a
method-to-handler mapping and an optional mounted sub-router. The Engine
mirrors the mux source: tree, not-found override, method-not-allowed
override, middleware stack, the computed-handler flag (handler not nil in
the source) and the inline flag. The parent back-reference and the pool are
not part of the value model. -/

mutual
inductive Node where
  | mk (statics : NodeMap) (rexes : RexList) (paramc : OptParamChild)
       (wildc : OptNode) (endpoints : List (Nat × Nat)) (sub : OptEngine)

inductive NodeMap where
  | nil
  | cons (key : String) (child : Node) (rest : NodeMap)

inductive RexList where
  | nil
  | cons (name : String) (expr : String) (child : Node) (rest : RexList)

inductive OptParamChild where
  | none
  | some (name : String) (child : Node)

inductive OptNode where
  | none
  | some (child : Node)

inductive OptEngine where
  | none
  | some (e : Engine)

inductive Engine where
  | mk (tree : Node) (notFoundHandler : Option Nat)
       (methodNotAllowedHandler : Option Nat) (middlewares : List Nat)
       (handlerBuilt : Bool) (inline : Bool)
end

def Node.staticsOf : Node → NodeMap
  | .mk st _ _ _ _ _ => st

def Node.rexesOf : Node → RexList
  | .mk _ rl _ _ _ _ => rl

def Node.paramcOf : Node → OptParamChild
  | .mk _ _ pc _ _ _ => pc

def Node.wildcOf : Node → OptNode
  | .mk _ _ _ wc _ _ => wc

def Node.endpointsOf : Node → List (Nat × Nat)
  | .mk _ _ _ _ eps _ => eps

def Node.subOf : Node → OptEngine
  | .mk _ _ _ _ _ sb => sb

def Engine.treeOf : Engine → Node
  | .mk t _ _ _ _ _ => t

def Engine.nfh : Engine → Option Nat
  | .mk _ nf _ _ _ _ => nf

def Engine.mnah : Engine → Option Nat
  | .mk _ _ mna _ _ _ => mna

def Engine.mws : Engine → List Nat
  | .mk _ _ _ ms _ _ => ms

def Engine.built : Engine → Bool
  | .mk _ _ _ _ hb _ => hb

def Engine.isInline : Engine → Bool
  | .mk _ _ _ _ _ inl => inl

/-- The empty trie vertex. -/
def emptyNode : Node := .mk .nil .nil .none .none [] .none

/-- A freshly constructed Engine, as returned by New in the mux source: an
empty tree, no overrides, no middleware, no computed handler. -/
def Engine.new : Engine := .mk emptyNode Option.none Option.none [] false false

/-! ## Endpoint maps

Modelled from the spec (section 3): a node stores a mapping from a concrete
method to a handler, with lookup falling back to the any-method entry, and
registration under a mask writes every set bit, last write wins. -/

/-- Sets one key of an endpoint association list, replacing a prior entry. -/
def epSet : List (Nat × Nat) → Nat → Nat → List (Nat × Nat)
  | [], k, h => [(k, h)]
  | (k', h') :: tl, k, h =>
    if k' = k then (k, h) :: tl else (k', h') :: epSet tl k h

/-- Exact lookup in an endpoint association list. -/
def epLookup : List (Nat × Nat) → Nat → Option Nat
  | [], _ => Option.none
  | (k', h') :: tl, k => if k' = k then Option.some h' else epLookup tl k

/-- Handler lookup for a concrete method, falling back to the any-method
entry when no exact entry exists. -/
def epValue (eps : List (Nat × Nat)) (m : Nat) : Option Nat :=
  match epLookup eps m with
  | Option.some h => Option.some h
  | Option.none => epLookup eps mALL

/-- Stores a handler for every method bit of the mask: the stub bit when
present, and either the any-method entry together with every verb entry, or
just the verb entries named by the mask. -/
def setEndpoints (mask h : Nat) (eps : List (Nat × Nat)) : List (Nat × Nat) :=
  let eps1 := if mask &&& mSTUB ≠ 0 then epSet eps mSTUB h else eps
  if mask &&& mALL = mALL then
    methodBits.foldl (fun acc b => epSet acc b h) (epSet eps1 mALL h)
  else
    methodBits.foldl (fun acc b => if mask &&& b ≠ 0 then epSet acc b h else acc) eps1

/-! ## Child-group operations -/

/-- Replaces the first entry with the given key, or appends a new entry. -/
def NodeMap.set : NodeMap → String → Node → NodeMap
  | .nil, k, c => .cons k c .nil
  | .cons k' c' tl, k, c =>
    if k' = k then .cons k c tl else .cons k' c' (NodeMap.set tl k c)

/-- Finds the first entry with the given key. -/
def NodeMap.lookup : NodeMap → String → Option Node
  | .nil, _ => Option.none
  | .cons k' c' tl, k => if k' = k then Option.some c' else NodeMap.lookup tl k

/-- Entry list of a static child group. -/
def NodeMap.entries : NodeMap → List (String × Node)
  | .nil => []
  | .cons k c tl => (k, c) :: NodeMap.entries tl

/-- Finds the regex child registered under the given name and expression. -/
def RexList.find : RexList → String → String → Option Node
  | .nil, _, _ => Option.none
  | .cons nm' ex' c' tl, nm, ex =>
    if nm' = nm ∧ ex' = ex then Option.some c' else RexList.find tl nm ex

/-- Replaces the regex child registered under the given name and expression,
or appends a new one, preserving insertion order. -/
def RexList.set : RexList → String → String → Node → RexList
  | .nil, nm, ex, c => .cons nm ex c .nil
  | .cons nm' ex' c' tl, nm, ex, c =>
    if nm' = nm ∧ ex' = ex then .cons nm ex c tl
    else .cons nm' ex' c' (RexList.set tl nm ex c)

/-- Entry list of a regex child group, in insertion order. -/
def RexList.entries : RexList → List (String × String × Node)
  | .nil => []
  | .cons nm ex c tl => (nm, ex, c) :: RexList.entries tl

/-! ## Tree insertion

Modelled from the spec (section 4.3): InsertRoute parses the pattern,
extends the trie one segment at a time creating vertices as needed, and at
the terminal vertex stores the handler for every method bit of the mask.
Instead of returning the terminal vertex for the caller to decorate, this
value-level embedding takes the optional sub-router to attach at the
terminal vertex as an argument; a plain insertion passes none and leaves
any existing sub-router reference in place. -/

def insertSegs (mask h : Nat) (attach : OptEngine) : List Seg → Node → Node
  | [], .mk st rl pc wc eps sb =>
    .mk st rl pc wc (setEndpoints mask h eps)
      (match attach with
       | .some s => .some s
       | .none => sb)
  | Seg.lit s :: rest, .mk st rl pc wc eps sb =>
    let child := match NodeMap.lookup st s with
      | Option.some c => c
      | Option.none => emptyNode
    .mk (NodeMap.set st s (insertSegs mask h attach rest child)) rl pc wc eps sb
  | Seg.rex nm ex :: rest, .mk st rl pc wc eps sb =>
    let child := match RexList.find rl nm ex with
      | Option.some c => c
      | Option.none => emptyNode
    .mk st (RexList.set rl nm ex (insertSegs mask h attach rest child)) pc wc eps sb
  | Seg.param nm :: rest, .mk st rl pc wc eps sb =>
    (match pc with
     | .some nm' c => .mk st rl (.some nm' (insertSegs mask h attach rest c)) wc eps sb
     | .none => .mk st rl (.some nm (insertSegs mask h attach rest emptyNode)) wc eps sb)
  | Seg.wild :: rest, .mk st rl pc wc eps sb =>
    (match wc with
     | .some c => .mk st rl pc (.some (insertSegs mask h attach rest c)) eps sb
     | .none => .mk st rl pc (.some (insertSegs mask h attach rest emptyNode)) eps sb)

/-! ## Literal pattern lookup

Modelled from the spec (section 4.7): Mount checks for an existing mount by
a tree lookup of the literal pattern. The walk follows the parsed segments;
a wildcard segment resolves to the presence of a wildcard child. -/

/-- Scans a static child group for entries with the given key, testing each
matching child with the continuation. -/
def anyStaticB (p : Node → Bool) : NodeMap → String → Bool
  | .nil, _ => false
  | .cons k c tl, s => (if k = s then p c else false) || anyStaticB p tl s

/-- Tests every regex child with the continuation. -/
def anyRexAllB (p : Node → Bool) : RexList → Bool
  | .nil => false
  | .cons _ _ c tl => p c || anyRexAllB p tl

/-- Fuel-indexed literal pattern lookup; the fuel bounds the segment count. -/
def findPatternF : Nat → List Seg → Node → Bool
  | _, [], n => decide (n.endpointsOf ≠ [])
  | _, Seg.wild :: _, n =>
    (match n.wildcOf with
     | .some _ => true
     | .none => false)
  | 0, _ :: _, _ => false
  | fu + 1, Seg.lit s :: rest, n => anyStaticB (fun c => findPatternF fu rest c) n.staticsOf s
  | fu + 1, Seg.rex _ _ :: rest, n => anyRexAllB (fun c => findPatternF fu rest c) n.rexesOf
  | fu + 1, Seg.param _ :: rest, n =>
    (match n.paramcOf with
     | .some _ c => findPatternF fu rest c
     | .none => false)

/-- Tree lookup of a literal pattern given as a string; an unparsable
pattern resolves to false. -/
def findPatternStr (t : Node) (pattern : String) : Bool :=
  match parsePattern pattern with
  | Except.ok segs => findPatternF segs.length segs t
  | Except.error _ => false

/-! ## Match engine

Modelled from the spec (section 4.4): FindRoute walks the tree with
backtracking; at each level children are attempted in fixed priority
static, regex-param, named-param, wildcard; a parameter is pushed on a
tentative match and the attempt that abandons a branch resumes from the
parameter stack it started with; the method-not-allowed flag is set when a
fully matching vertex has endpoints but no applicable entry, and is never
cleared while backtracking continues. The engine is fuel-indexed with one
unit of fuel per consumed segment, and the wrapper below supplies exactly
the segment count, which is always sufficient. -/

abbrev FindRes := Bool × Option (RouteParams × Nat × OptEngine)

/-- Attempts the static children with the given key in order; a child whose
subtree fails passes its updated flag to the next attempt while the
parameter stack of the failed attempt is abandoned. -/
def tryStaticF (go : Node → RouteParams → Bool → FindRes) :
    NodeMap → String → RouteParams → Bool → FindRes
  | .nil, _, _, f => (f, Option.none)
  | .cons k c tl, s, ps, f =>
    if k = s then
      match go c ps f with
      | (f', Option.some r) => (f', Option.some r)
      | (f', Option.none) => tryStaticF go tl s ps f'
    else tryStaticF go tl s ps f

/-- Attempts the regex children in insertion order; a child is entered only
when the oracle accepts the segment, pushing the named binding. -/
def tryRexF (rx : String → String → Bool) (go : Node → RouteParams → Bool → FindRes) :
    RexList → String → RouteParams → Bool → FindRes
  | .nil, _, _, f => (f, Option.none)
  | .cons nm ex c tl, s, ps, f =>
    if rx ex s then
      match go c (ps.push nm s) f with
      | (f', Option.some r) => (f', Option.some r)
      | (f', Option.none) => tryRexF rx go tl s ps f'
    else tryRexF rx go tl s ps f

/-- Fuel-indexed core of FindRoute. -/
def findRouteCoreF (rx : String → String → Bool) (m : Nat) :
    Nat → Node → List String → RouteParams → Bool → FindRes
  | _, n, [], ps, f =>
    (match epValue n.endpointsOf m with
     | Option.some h => (f, Option.some (ps, h, n.subOf))
     | Option.none => (f || decide (n.endpointsOf ≠ []), Option.none))
  | 0, _, _ :: _, _, f => (f, Option.none)
  | fu + 1, n, s :: rest, ps, f =>
    match tryStaticF (fun c ps' f' => findRouteCoreF rx m fu c rest ps' f') n.staticsOf s ps f with
    | (f1, Option.some r) => (f1, Option.some r)
    | (f1, Option.none) =>
      match tryRexF rx (fun c ps' f' => findRouteCoreF rx m fu c rest ps' f') n.rexesOf s ps f1 with
      | (f2, Option.some r) => (f2, Option.some r)
      | (f2, Option.none) =>
        match (match n.paramcOf with
               | .some nm c => findRouteCoreF rx m fu c rest (ps.push nm s) f2
               | .none => (f2, Option.none)) with
        | (f3, Option.some r) => (f3, Option.some r)
        | (f3, Option.none) =>
          match n.wildcOf with
          | .some c => findRouteCoreF rx m fu c [] (ps.push "*" (joinPath (s :: rest))) f3
          | .none => (f3, Option.none)

/-- Core of FindRoute at exactly sufficient fuel. -/
def findRouteCore (rx : String → String → Bool) (m : Nat) (t : Node)
    (segs : List String) (ps : RouteParams) (f : Bool) : FindRes :=
  findRouteCoreF rx m segs.length t segs ps f

/-- Tests every regex child whose expression accepts the segment. -/
def anyRexMatchB (rx : String → String → Bool) (p : Node → Bool) : RexList → String → Bool
  | .nil, _ => false
  | .cons _ ex c tl, s => (if rx ex s then p c else false) || anyRexMatchB rx p tl s

/-- Fuel-indexed method-agnostic reachability: some registered pattern,
for whatever method, fully matches the segments. -/
def pathMatchesF (rx : String → String → Bool) : Nat → Node → List String → Bool
  | _, n, [] => decide (n.endpointsOf ≠ [])
  | 0, _, _ :: _ => false
  | fu + 1, n, s :: rest =>
    anyStaticB (fun c => pathMatchesF rx fu c rest) n.staticsOf s
    || (anyRexMatchB rx (fun c => pathMatchesF rx fu c rest) n.rexesOf s
    || ((match n.paramcOf with
         | .some _ c => pathMatchesF rx fu c rest
         | .none => false)
    || (match n.wildcOf with
        | .some c => pathMatchesF rx fu c []
        | .none => false)))

/-- Fuel-indexed method-aware reachability: some registered pattern fully
matches the segments with an applicable entry for the method. -/
def pathMethodF (rx : String → String → Bool) (m : Nat) : Nat → Node → List String → Bool
  | _, n, [] => (epValue n.endpointsOf m).isSome
  | 0, _, _ :: _ => false
  | fu + 1, n, s :: rest =>
    anyStaticB (fun c => pathMethodF rx m fu c rest) n.staticsOf s
    || (anyRexMatchB rx (fun c => pathMethodF rx m fu c rest) n.rexesOf s
    || ((match n.paramcOf with
         | .some _ c => pathMethodF rx m fu c rest
         | .none => false)
    || (match n.wildcOf with
        | .some c => pathMethodF rx m fu c []
        | .none => false)))

/-- Some registered pattern fully matches the path, for whatever method. -/
def pathMatches (rx : String → String → Bool) (t : Node) (path : String) : Bool :=
  pathMatchesF rx (pathSegs path).length t (pathSegs path)

/-- Some registered pattern fully matches the path with an applicable entry
for the method. -/
def pathMethodMatches (rx : String → String → Bool) (m : Nat) (t : Node) (path : String) : Bool :=
  pathMethodF rx m (pathSegs path).length t (pathSegs path)

/-- Modelled from the spec: FindRoute resets the in-flight parameter stack,
runs the core walk, and on success accumulates the bindings of the winning
pattern onto the finalized URLParams list. -/
def FindRoute (rx : String → String → Bool) (t : Node) (m : Nat) (ctx : Context)
    (path : String) : Context × Option (Nat × OptEngine) :=
  match findRouteCore rx m t (pathSegs path) ⟨[], []⟩ ctx.methodNotAllowed with
  | (f, Option.none) =>
    ({ ctx with routeParams := ⟨[], []⟩, methodNotAllowed := f }, Option.none)
  | (f, Option.some (rp, h, sub)) =>
    ({ ctx with
        routeParams := rp
        methodNotAllowed := f
        URLParams := ⟨ctx.URLParams.Keys ++ rp.Keys, ctx.URLParams.Values ++ rp.Values⟩ },
      Option.some (h, sub))

/-- The convenience view of the handler resolved by the core walk. -/
def findRouteHandler (rx : String → String → Bool) (m : Nat) (t : Node) (path : String) :
    Option Nat :=
  (findRouteCore rx m t (pathSegs path) ⟨[], []⟩ false).2.map (fun r => r.2.1)

/-! ## Dispatch (routeHTTP and ServeHTTP of the mux source) -/

/-- Which handler slot a dispatch resolves to. -/
inductive Classification where
  | matched (h : Nat)
  | notFound
  | methodNotAllowed
  deriving DecidableEq, Repr

/-- Which concrete responder a miss slot denotes, given the overrides. -/
inductive HRef where
  | user (h : Nat)
  | defaultNotFound
  | defaultMethodNotAllowed
  deriving DecidableEq, Repr

/-- NotFoundHandler of the mux source: the override when set, else the
standard-library 404 responder. -/
def Engine.notFoundRef (e : Engine) : HRef :=
  match e.nfh with
  | Option.some h => HRef.user h
  | Option.none => HRef.defaultNotFound

/-- MethodNotAllowedHandler of the mux source: the override when set, else
the package-level 405 responder. -/
def Engine.methodNotAllowedRef (e : Engine) : HRef :=
  match e.mnah with
  | Option.some h => HRef.user h
  | Option.none => HRef.defaultMethodNotAllowed

/-- Embeds routeHTTP of the mux source: the routing path comes from the
context when a parent router set it and from the request URL otherwise; a
method missing from the registry is dispatched to the method-not-allowed
handler at once; otherwise FindRoute runs and a miss is classified by the
method-not-allowed flag. The raw-URL branch of the source is not modelled;
the url argument stands for the effective request path. -/
def Engine.routeHTTPClass (rx : String → String → Bool) (e : Engine)
    (reqMethod url : String) (ctx : Context) : Context × Classification :=
  let routePath := if ctx.RoutePath ≠ "" then ctx.RoutePath else (if url = "" then "/" else url)
  let rm := if ctx.RouteMethod = "" then reqMethod else ctx.RouteMethod
  let ctx1 := { ctx with RouteMethod := rm }
  match lookupStr methodMap rm with
  | Option.none => (ctx1, Classification.methodNotAllowed)
  | Option.some m =>
    match FindRoute rx e.treeOf m ctx1 routePath with
    | (ctx2, Option.some (h, _)) => (ctx2, Classification.matched h)
    | (ctx2, Option.none) =>
      (ctx2, if ctx2.methodNotAllowed then Classification.methodNotAllowed
             else Classification.notFound)

/-- Embeds the classification part of ServeHTTP: a mux whose computed
handler was never built serves the not-found handler at once; otherwise the
request is dispatched through routeHTTP on a fresh context. The middleware
stack wraps the dispatch but is opaque in this embedding. -/
def Engine.serveClass (rx : String → String → Bool) (e : Engine)
    (reqMethod url : String) : Classification :=
  if e.built = false then Classification.notFound
  else (Engine.routeHTTPClass rx e reqMethod url Context.reset).2

/-- Embeds the pool discipline of ServeHTTP. The pool is the list of idle
contexts; an empty pool creates a fresh context, as the pool of the source
does. Whether the dispatched handler panics is an input, since handlers are
external; a panic is an error result carrying the pool as the panic
propagates. The source calls Put after the handler call with no defer, so
the error branch never returns the acquired context. -/
def Engine.serveHTTPPool (e : Engine) (pool : List Context) (parentCtx : Bool)
    (handlerPanics : Bool) : Except (List Context) (List Context) :=
  if e.built = false then Except.ok pool
  else if parentCtx then
    (if handlerPanics then Except.error pool else Except.ok pool)
  else
    let rctx := Context.reset
    let pool1 := pool.drop 1
    if handlerPanics then Except.error pool1
    else Except.ok (pool1 ++ [rctx])

/-! ## Mount delegation state (mux source lines 404 to 417 and 562 to 569) -/

/-- Embeds nextRoutePath: the wildcard-matched suffix of the in-flight
parameter stack, prefixed with a slash, or the root path. -/
def nextRoutePath (ctx : Context) : String :=
  match ctx.routeParams.Keys.length with
  | 0 => "/"
  | Nat.succ n =>
    if ctx.routeParams.Keys.getD n "" = "*" ∧ n < ctx.routeParams.Values.length then
      "/" ++ ctx.routeParams.Values.getD n ""
    else "/"

/-- Embeds the wildcard URLParam reset of the mount handler: the last
finalized value is cleared when its key is the wildcard. -/
def resetWildValue (ps : RouteParams) : RouteParams :=
  match ps.Keys.length with
  | 0 => ps
  | Nat.succ n =>
    if ps.Keys.getD n "" = "*" ∧ n < ps.Values.length then
      ⟨ps.Keys, ps.Values.set n ""⟩
    else ps

/-- Embeds the state transform of the mount handler installed by Mount:
shift the routing path past the parent router via nextRoutePath, then reset
the wildcard URLParam that connects the sub-router, and delegate. -/
def mountHandlerStep (ctx : Context) : Context :=
  let ctx1 := { ctx with RoutePath := nextRoutePath ctx }
  { ctx1 with URLParams := resetWildValue ctx1.URLParams }

/-! ## Registration (handle, Use, NotFound, MethodNotAllowed, Mount) -/

/-- Tests whether a pattern begins with a slash. -/
def slashStart (pattern : String) : Bool :=
  match pattern.data with
  | '/' :: _ => true
  | _ => false

def Engine.setBuilt : Engine → Engine
  | .mk t nf mna ms _ inl => .mk t nf mna ms true inl

def Engine.withTree (t : Node) : Engine → Engine
  | .mk _ nf mna ms hb inl => .mk t nf mna ms hb inl

/-- Embeds handle of the mux source, with an optional sub-router to attach
at the terminal vertex. The pattern must begin with a slash; a non-inline
mux with no computed handler builds it now (the freeze point); an inline mux
marks its own computed handler and wraps the endpoint handler with its
middleware prefix, which is opaque at the level of handler identifiers.
There is no guard against registration after the computed handler exists:
the source inserts into the tree unconditionally. A parse failure of the
pattern aborts registration, standing for the panic of InsertRoute. -/
def Engine.handleAttach (e : Engine) (method : Nat) (pattern : String) (h : Nat)
    (attach : OptEngine) : Except String Engine :=
  if slashStart pattern = false then
    Except.error "chi: routing pattern must begin with a slash"
  else
    let e1 := if e.isInline = false ∧ e.built = false then e.setBuilt else e
    let e2 := if e1.isInline then e1.setBuilt else e1
    match parsePattern pattern with
    | Except.error msg => Except.error msg
    | Except.ok segs => Except.ok (e2.withTree (insertSegs method h attach segs e2.treeOf))

/-- Route registration of the mux source, as used by Handle, Get, Method and
the other verb helpers. -/
def Engine.handleReg (e : Engine) (method : Nat) (pattern : String) (h : Nat) :
    Except String Engine :=
  e.handleAttach method pattern h OptEngine.none

/-- Embeds Use of the mux source: appending middleware is rejected once the
computed handler has been built. -/
def Engine.Use (e : Engine) (ms' : List Nat) : Except String Engine :=
  if e.built then
    Except.error "chi: all middlewares must be defined before routes on a mux"
  else
    (match e with
     | .mk t nf mna ms hb inl => Except.ok (.mk t nf mna (ms ++ ms') hb inl))

/-! ## Miss-handler propagation (NotFound, MethodNotAllowed, Mount) -/

/- Sub-router slots of a tree, in traversal order. -/
mutual
def Node.subEngines : Node → List Engine
  | .mk st rl pc wc _ sb =>
    OptEngine.subList sb ++ NodeMap.subEngines st ++ RexList.subEngines rl ++
      OptParamChild.subEngines pc ++ OptNode.subEngines wc

def NodeMap.subEngines : NodeMap → List Engine
  | .nil => []
  | .cons _ c tl => Node.subEngines c ++ NodeMap.subEngines tl

def RexList.subEngines : RexList → List Engine
  | .nil => []
  | .cons _ _ c tl => Node.subEngines c ++ RexList.subEngines tl

def OptParamChild.subEngines : OptParamChild → List Engine
  | .none => []
  | .some _ c => Node.subEngines c

def OptNode.subEngines : OptNode → List Engine
  | .none => []
  | .some c => Node.subEngines c

def OptEngine.subList : OptEngine → List Engine
  | .none => []
  | .some s => [s]
end

/-- Sub-routers mounted anywhere in the tree of a mux. -/
def Engine.subEngines (e : Engine) : List Engine :=
  Node.subEngines e.treeOf

/- Embeds NotFound and MethodNotAllowed of the mux source for a non-inline
mux, selected by the first argument (true selects the not-found handler).
The override is stored and then every sub-router in the tree that lacks its
own override receives the same setter recursively, exactly as
updateSubRoutes does; a sub-router that already carries an override is left
untouched. The inline branch of the source, which wraps the handler in the
middleware prefix and writes to the parent, is outside this value model and
is not needed by the claims. -/
mutual
def Engine.setMiss (isNF : Bool) (f : Nat) : Engine → Engine
  | .mk t nf mna ms hb inl =>
    if isNF then .mk (Node.setMissSubs isNF f t) (Option.some f) mna ms hb inl
    else .mk (Node.setMissSubs isNF f t) nf (Option.some f) ms hb inl

def Node.setMissSubs (isNF : Bool) (f : Nat) : Node → Node
  | .mk st rl pc wc eps sb =>
    .mk (NodeMap.setMissSubs isNF f st) (RexList.setMissSubs isNF f rl)
      (OptParamChild.setMissSubs isNF f pc) (OptNode.setMissSubs isNF f wc) eps
      (OptEngine.setMissSub isNF f sb)

def NodeMap.setMissSubs (isNF : Bool) (f : Nat) : NodeMap → NodeMap
  | .nil => .nil
  | .cons k c tl => .cons k (Node.setMissSubs isNF f c) (NodeMap.setMissSubs isNF f tl)

def RexList.setMissSubs (isNF : Bool) (f : Nat) : RexList → RexList
  | .nil => .nil
  | .cons nm ex c tl =>
    .cons nm ex (Node.setMissSubs isNF f c) (RexList.setMissSubs isNF f tl)

def OptParamChild.setMissSubs (isNF : Bool) (f : Nat) : OptParamChild → OptParamChild
  | .none => .none
  | .some nm c => .some nm (Node.setMissSubs isNF f c)

def OptNode.setMissSubs (isNF : Bool) (f : Nat) : OptNode → OptNode
  | .none => .none
  | .some c => .some (Node.setMissSubs isNF f c)

def OptEngine.setMissSub (isNF : Bool) (f : Nat) : OptEngine → OptEngine
  | .none => .none
  | .some s =>
    .some (if (if isNF then Engine.nfh s else Engine.mnah s) = Option.none
           then Engine.setMiss isNF f s else s)
end

/-- Conditional sub-router update applied by updateSubRoutes: a sub-router
lacking its own override receives the setter, any other is untouched. -/
def updMiss (isNF : Bool) (f : Nat) (s : Engine) : Engine :=
  if (if isNF then Engine.nfh s else Engine.mnah s) = Option.none
  then Engine.setMiss isNF f s else s

/-- Argument of Mount: the Go nil handler, a plain handler, or a sub-router. -/
inductive MountArg where
  | nilH
  | plainH (h : Nat)
  | routerH (s : Engine)

/-- Transformation Mount applies to a mounted sub-router before installing
it: the sub-router inherits the not-found override of the parent when it has
none of its own, then likewise for the method-not-allowed override. -/
def mountPropagate (e s : Engine) : Engine :=
  let s1 := match s.nfh, e.nfh with
    | Option.none, Option.some f => Engine.setMiss true f s
    | _, _ => s
  match s1.mnah, e.mnah with
  | Option.none, Option.some f => Engine.setMiss false f s1
  | _, _ => s1

/-- Embeds Mount of the mux source: a nil handler is rejected; a pattern
whose wildcard prefix already resolves in the tree is rejected; the parent
overrides are propagated to a sub-router lacking its own; the mount handler
is registered under the pattern, the pattern with a trailing slash, and the
trailing-wildcard pattern, the last carrying the sub-router reference. -/
def Engine.Mount (e : Engine) (pattern : String) (arg : MountArg) (mh : Nat) :
    Except String Engine :=
  match arg with
  | MountArg.nilH =>
    Except.error ("chi: attempting to Mount a nil handler on " ++ pattern)
  | _ =>
    if findPatternStr e.treeOf (pattern ++ "*") || findPatternStr e.treeOf (pattern ++ "/*") then
      Except.error ("chi: attempting to Mount a handler on an existing path " ++ pattern)
    else
      let attach : OptEngine := match arg with
        | MountArg.routerH s => OptEngine.some (mountPropagate e s)
        | _ => OptEngine.none
      let stub : Nat := match arg with
        | MountArg.routerH _ => mSTUB
        | _ => 0
      do
        let pres ←
          (if pattern.data.getLast? ≠ Option.some '/' then do
            let ea ← Engine.handleReg e (mALL ||| mSTUB) pattern mh
            let eb ← Engine.handleReg ea (mALL ||| mSTUB) (pattern ++ "/") mh
            pure (eb, pattern ++ "/")
          else pure (e, pattern))
        Engine.handleAttach pres.1 (mALL ||| stub) (pres.2 ++ "*") mh attach

/-! ## Shared concrete material for witnesses and counterexamples -/

/-- Regex oracle that accepts nothing; the claims under test involve no
regex segment. -/
def rxNone : String → String → Bool := fun _ _ => false

/-- Extracts the router from a successful setup step; setup steps used by
the concrete scenarios below all succeed. -/
def Engine.ofExcept : Except String Engine → Engine
  | Except.ok e => e
  | Except.error _ => Engine.new

/-! ## Toolkit lemmas about endpoint maps and insertion -/

theorem epLookup_epSet (eps : List (Nat × Nat)) (k h : Nat) :
    epLookup (epSet eps k h) k = Option.some h := by
  induction eps with
  | nil => simp [epSet, epLookup]
  | cons e tl ih =>
    rcases e with ⟨k', h'⟩
    by_cases hk : k' = k
    · simp [epSet, epLookup, hk]
    · simp [epSet, epLookup, hk, ih]

theorem epValue_epSet (eps : List (Nat × Nat)) (k h : Nat) :
    epValue (epSet eps k h) k = Option.some h := by
  unfold epValue
  rw [epLookup_epSet]

theorem epValue_setEndpoints (mb : Nat) (hmb : mb ∈ methodBits) (h : Nat)
    (eps : List (Nat × Nat)) :
    epValue (setEndpoints mb h eps) mb = Option.some h := by
  fin_cases hmb <;>
    simp +decide [setEndpoints, methodBits, mSTUB, mCONNECT, mDELETE, mGET, mHEAD,
      mOPTIONS, mPATCH, mPOST, mPUT, mTRACE, mALL, List.foldl, epValue_epSet]

theorem NodeMap.lookup_set : ∀ (nm : NodeMap) (k : String) (c : Node),
    NodeMap.lookup (NodeMap.set nm k c) k = Option.some c
  | .nil, k, c => by simp [NodeMap.set, NodeMap.lookup]
  | .cons k' c' tl, k, c => by
    by_cases hk : k' = k
    · simp [NodeMap.set, NodeMap.lookup, hk]
    · simp [NodeMap.set, NodeMap.lookup, hk, NodeMap.lookup_set tl k c]

/-- The static child a literal insertion descends into. -/
def childLit (t : Node) (s : String) : Node :=
  match NodeMap.lookup t.staticsOf s with
  | Option.some c => c
  | Option.none => emptyNode

theorem staticsOf_insert_lit (mask h : Nat) (ac : OptEngine) (s : String)
    (rest : List Seg) (t : Node) :
    (insertSegs mask h ac (Seg.lit s :: rest) t).staticsOf =
      NodeMap.set t.staticsOf s (insertSegs mask h ac rest (childLit t s)) := by
  cases t with
  | mk st rl pc wc eps sb => rfl

theorem staticsOf_insert_param (mask h : Nat) (ac : OptEngine) (nm : String)
    (rest : List Seg) (t : Node) :
    (insertSegs mask h ac (Seg.param nm :: rest) t).staticsOf = t.staticsOf := by
  cases t with
  | mk st rl pc wc eps sb => cases pc <;> rfl

theorem endpointsOf_insert_nil (mask h : Nat) (ac : OptEngine) (t : Node) :
    (insertSegs mask h ac [] t).endpointsOf = setEndpoints mask h t.endpointsOf := by
  cases t with
  | mk st rl pc wc eps sb => cases ac <;> rfl

theorem tryStaticF_set (go : Node → RouteParams → Bool → FindRes) :
    ∀ (nm : NodeMap) (k : String) (c : Node) (ps : RouteParams) (f f' : Bool)
      (r : RouteParams × Nat × OptEngine), go c ps f = (f', Option.some r) →
    tryStaticF go (NodeMap.set nm k c) k ps f = (f', Option.some r)
  | .nil, k, c, ps, f, f', r, hgo => by simp [NodeMap.set, tryStaticF, hgo]
  | .cons k' c' tl, k, c, ps, f, f', r, hgo => by
    by_cases hk : k' = k
    · simp [NodeMap.set, tryStaticF, hk, hgo]
    · simp [NodeMap.set, tryStaticF, hk, tryStaticF_set go tl k c ps f f' r hgo]

theorem findRouteCoreF_static_hit (rx : String → String → Bool) (m fu : Nat) (t : Node)
    (s : String) (rest : List String) (ps : RouteParams) (f f' : Bool)
    (r : RouteParams × Nat × OptEngine)
    (h : tryStaticF (fun c ps' f0 => findRouteCoreF rx m fu c rest ps' f0) t.staticsOf s ps f =
      (f', Option.some r)) :
    findRouteCoreF rx m (fu + 1) t (s :: rest) ps f = (f', Option.some r) := by
  simp only [findRouteCoreF]
  rw [h]

theorem findRouteCoreF_nil_ep (rx : String → String → Bool) (m fu h : Nat) (t : Node)
    (ps : RouteParams) (f : Bool) (hep : epValue t.endpointsOf m = Option.some h) :
    findRouteCoreF rx m fu t [] ps f = (f, Option.some (ps, h, t.subOf)) := by
  simp only [findRouteCoreF]
  rw [hep]

theorem Engine.built_setBuilt (e : Engine) : (Engine.setBuilt e).built = true := by
  cases e; rfl

theorem Engine.built_withTree (t : Node) (e : Engine) :
    (Engine.withTree t e).built = e.built := by
  cases e; rfl

theorem Engine.treeOf_withTree (t : Node) (e : Engine) :
    (Engine.withTree t e).treeOf = t := by
  cases e; rfl

/-- One-level insert-then-resolve fact shared by the freeze and priority
claims: inserting a single-literal pattern makes the inserted handler
resolvable for the registered method bit. -/
theorem findRouteHandler_insert_single (rx : String → String → Bool) (mb h : Nat)
    (hmb : mb ∈ methodBits) (t : Node) :
    findRouteHandler rx mb (insertSegs mb h OptEngine.none [Seg.lit "posts"] t) "/posts" =
      Option.some h := by
  have hps : pathSegs "/posts" = ["posts"] := rfl
  have hC : findRouteCoreF rx mb 0
      (insertSegs mb h OptEngine.none [] (childLit t "posts")) [] ⟨[], []⟩ false =
      (false, Option.some (⟨[], []⟩, h,
        (insertSegs mb h OptEngine.none [] (childLit t "posts")).subOf)) := by
    apply findRouteCoreF_nil_ep
    rw [endpointsOf_insert_nil]
    exact epValue_setEndpoints mb hmb h _
  have hmain : findRouteCoreF rx mb 1 (insertSegs mb h OptEngine.none [Seg.lit "posts"] t)
      ["posts"] ⟨[], []⟩ false =
      (false, Option.some (⟨[], []⟩, h,
        (insertSegs mb h OptEngine.none [] (childLit t "posts")).subOf)) := by
    apply findRouteCoreF_static_hit
    rw [staticsOf_insert_lit]
    exact tryStaticF_set _ _ _ _ _ _ _ _ hC
  unfold findRouteHandler findRouteCore
  rw [hps]
  simp only [List.length_cons, List.length_nil, Nat.zero_add]
  rw [hmain]
  rfl

/-! ## Claim C2: registration after the dispatch handler is built -/

/-- A router frozen by a first registration: GET /x is registered, so the
computed handler exists. -/
def frozenGetX : Engine := Engine.ofExcept (Engine.new.handleReg mGET "/x" 7)

/-- The same router after a second registration attempted once frozen. -/
def frozenThenY : Engine := Engine.ofExcept (frozenGetX.handleReg mGET "/y" 9)

/-- C2 counterexample: on a router whose dispatch handler has been built,
a further route registration is not rejected; it succeeds and extends the
routing tree, as the new route resolves afterwards and did not before. -/
theorem c2_counterexample :
    frozenGetX.built = true ∧
    (frozenGetX.handleReg mGET "/y" 9).isOk = true ∧
    findRouteHandler rxNone mGET frozenGetX.treeOf "/y" = Option.none ∧
    findRouteHandler rxNone mGET frozenThenY.treeOf "/y" = Option.some 9 := by
  refine ⟨rfl, rfl, rfl, rfl⟩

/-- C2 amended: route registration after the dispatch handler has been built
is accepted and mutates the routing tree; no guard rejects it. Only
middleware registration is guarded, which claim C5 covers. -/
theorem c2_after_freeze (rx : String → String → Bool) (e : Engine) (h mb : Nat)
    (hb : Engine.built e = true) (hmb : mb ∈ methodBits) :
    ∃ e', Engine.handleReg e mb "/posts" h = Except.ok e' ∧
      Engine.built e' = true ∧
      findRouteHandler rx mb e'.treeOf "/posts" = Option.some h := by
  have hslash : slashStart "/posts" = true := rfl
  have hpat : parsePattern "/posts" = Except.ok [Seg.lit "posts"] := rfl
  simp only [Engine.handleReg, Engine.handleAttach, hslash, hpat, hb,
    Bool.true_eq_false, and_false, if_false]
  by_cases hinl : e.isInline = true
  · simp only [hinl, if_true]
    refine ⟨_, rfl, ?_, ?_⟩
    · rw [Engine.built_withTree, Engine.built_setBuilt]
    · rw [Engine.treeOf_withTree]
      exact findRouteHandler_insert_single rx mb h hmb _
  · simp only [hinl, if_false]
    refine ⟨_, rfl, ?_, ?_⟩
    · rw [Engine.built_withTree]
      exact hb
    · rw [Engine.treeOf_withTree]
      exact findRouteHandler_insert_single rx mb h hmb _

/-- C2 witness: the frozen router accepts the registration of /posts. -/
theorem c2_witness :
    ∃ e', Engine.handleReg frozenGetX mGET "/posts" 11 = Except.ok e' ∧
      Engine.built e' = true ∧
      findRouteHandler rxNone mGET e'.treeOf "/posts" = Option.some 11 :=
  c2_after_freeze rxNone frozenGetX 11 mGET rfl (by decide)

/-! ## Claim C6: static children beat parameter children -/

/-- Registers a pattern string in a tree; the patterns used by the claims
all parse, and an unparsable pattern leaves the tree unchanged. -/
def insertPattern (mask : Nat) (pattern : String) (h : Nat) (t : Node) : Node :=
  match parsePattern pattern with
  | Except.ok segs => insertSegs mask h OptEngine.none segs t
  | Except.error _ => t

theorem childLit_insert_lit (mask h : Nat) (ac : OptEngine) (s : String)
    (rest : List Seg) (t : Node) :
    childLit (insertSegs mask h ac (Seg.lit s :: rest) t) s =
      insertSegs mask h ac rest (childLit t s) := by
  unfold childLit
  rw [staticsOf_insert_lit, NodeMap.lookup_set]
  rfl

/-- Two-level insert-then-resolve fact: with the parameter route and the
static route both registered under /users, the static route wins for the
path /users/me, whichever was registered first. -/
theorem c6_static_priority (rx : String → String → Bool) (t : Node) (mb h1 h2 : Nat)
    (hmb : mb ∈ methodBits) :
    findRouteHandler rx mb
        (insertPattern mb "/users/me" h2 (insertPattern mb "/users/{id}" h1 t))
        "/users/me" = Option.some h2 ∧
    findRouteHandler rx mb
        (insertPattern mb "/users/{id}" h1 (insertPattern mb "/users/me" h2 t))
        "/users/me" = Option.some h2 := by
  have hp1 : parsePattern "/users/{id}" = Except.ok [Seg.lit "users", Seg.param "id"] := rfl
  have hp2 : parsePattern "/users/me" = Except.ok [Seg.lit "users", Seg.lit "me"] := rfl
  have hps : pathSegs "/users/me" = ["users", "me"] := rfl
  constructor
  · -- parameter route first, static route second
    simp only [insertPattern, hp1, hp2]
    set t1 := insertSegs mb h1 OptEngine.none [Seg.lit "users", Seg.param "id"] t with ht1
    set B := insertSegs mb h2 OptEngine.none [Seg.lit "me"] (childLit t1 "users") with hB
    set C := insertSegs mb h2 OptEngine.none [] (childLit (childLit t1 "users") "me") with hC
    have hCc : findRouteCoreF rx mb 0 C [] ⟨[], []⟩ false =
        (false, Option.some (⟨[], []⟩, h2, C.subOf)) := by
      apply findRouteCoreF_nil_ep
      rw [hC, endpointsOf_insert_nil]
      exact epValue_setEndpoints mb hmb h2 _
    have hBc : findRouteCoreF rx mb 1 B ["me"] ⟨[], []⟩ false =
        (false, Option.some (⟨[], []⟩, h2, C.subOf)) := by
      apply findRouteCoreF_static_hit
      rw [hB, staticsOf_insert_lit]
      exact tryStaticF_set _ _ _ _ _ _ _ _ hCc
    have hTc : findRouteCoreF rx mb 2
        (insertSegs mb h2 OptEngine.none [Seg.lit "users", Seg.lit "me"] t1)
        ["users", "me"] ⟨[], []⟩ false =
        (false, Option.some (⟨[], []⟩, h2, C.subOf)) := by
      apply findRouteCoreF_static_hit
      rw [staticsOf_insert_lit]
      exact tryStaticF_set _ _ _ _ _ _ _ _ hBc
    unfold findRouteHandler findRouteCore
    rw [hps]
    simp only [List.length_cons, List.length_nil, Nat.zero_add]
    rw [hTc]
    rfl
  · -- static route first, parameter route second
    simp only [insertPattern, hp1, hp2]
    set t1 := insertSegs mb h2 OptEngine.none [Seg.lit "users", Seg.lit "me"] t with ht1
    set A := insertSegs mb h1 OptEngine.none [Seg.param "id"] (childLit t1 "users") with hA
    set B0 := insertSegs mb h2 OptEngine.none [Seg.lit "me"] (childLit t "users") with hB0
    set C0 := insertSegs mb h2 OptEngine.none [] (childLit (childLit t "users") "me") with hC0
    have hchild : childLit t1 "users" = B0 := by
      rw [ht1, hB0, childLit_insert_lit]
    have hC0c : findRouteCoreF rx mb 0 C0 [] ⟨[], []⟩ false =
        (false, Option.some (⟨[], []⟩, h2, C0.subOf)) := by
      apply findRouteCoreF_nil_ep
      rw [hC0, endpointsOf_insert_nil]
      exact epValue_setEndpoints mb hmb h2 _
    have hAc : findRouteCoreF rx mb 1 A ["me"] ⟨[], []⟩ false =
        (false, Option.some (⟨[], []⟩, h2, C0.subOf)) := by
      apply findRouteCoreF_static_hit
      rw [hA, staticsOf_insert_param, hchild, hB0, staticsOf_insert_lit]
      exact tryStaticF_set _ _ _ _ _ _ _ _ hC0c
    have hTc : findRouteCoreF rx mb 2
        (insertSegs mb h1 OptEngine.none [Seg.lit "users", Seg.param "id"] t1)
        ["users", "me"] ⟨[], []⟩ false =
        (false, Option.some (⟨[], []⟩, h2, C0.subOf)) := by
      apply findRouteCoreF_static_hit
      rw [staticsOf_insert_lit]
      exact tryStaticF_set _ _ _ _ _ _ _ _ hAc
    unfold findRouteHandler findRouteCore
    rw [hps]
    simp only [List.length_cons, List.length_nil, Nat.zero_add]
    rw [hTc]
    rfl

/-- C6 witness: on the empty tree with GET, the static handler 2 wins over
the parameter handler 1 in both registration orders. -/
theorem c6_witness :
    findRouteHandler rxNone mGET
        (insertPattern mGET "/users/me" 2 (insertPattern mGET "/users/{id}" 1 emptyNode))
        "/users/me" = Option.some 2 ∧
    findRouteHandler rxNone mGET
        (insertPattern mGET "/users/{id}" 1 (insertPattern mGET "/users/me" 2 emptyNode))
        "/users/me" = Option.some 2 :=
  c6_static_priority rxNone emptyNode mGET 1 2 (by decide)

/-! ## Claim C5: Use after freeze fails at once -/

/-- C5: once the dispatch handler has been built, any further middleware
registration through Use fails immediately with the guard panic of the
source; no state is produced, so no request is ever served through the new
middleware. -/
theorem c5_use_guard (e : Engine) (ms' : List Nat) (hb : Engine.built e = true) :
    ∃ msg, Engine.Use e ms' = Except.error msg := by
  refine ⟨"chi: all middlewares must be defined before routes on a mux", ?_⟩
  simp [Engine.Use, hb]

/-- C5 witness: the frozen router rejects a middleware registration. -/
theorem c5_witness : ∃ msg, Engine.Use frozenGetX [3] = Except.error msg :=
  c5_use_guard frozenGetX [3] rfl

/-! ## Claim C10: a fresh router serves not-found without failure -/

/-- C10: a freshly constructed router has no computed handler, so ServeHTTP
answers every request through the not-found handler, which is the default
404 responder, and returns normally instead of dispatching through the
absent computed handler. -/
theorem c10_fresh_not_found (rx : String → String → Bool) (rm url : String) :
    Engine.serveClass rx Engine.new rm url = Classification.notFound ∧
    Engine.new.built = false ∧
    Engine.new.notFoundRef = HRef.defaultNotFound :=
  ⟨rfl, rfl, rfl⟩

/-! ## Claim C3: pool release and handler panics -/

/-- C3 counterexample: with one idle context in the pool, a dispatch whose
handler panics propagates the panic with an empty pool, so the acquired
context was not released; a normal dispatch does release it. -/
theorem c3_counterexample :
    Engine.serveHTTPPool frozenGetX [Context.reset] false true = Except.error [] ∧
    Engine.serveHTTPPool frozenGetX [Context.reset] false false =
      Except.ok [Context.reset] :=
  ⟨rfl, rfl⟩

/-- C3 amended: the context is released back to the pool when the dispatched
handler returns normally; when the handler panics, ServeHTTP has no defer,
the panic propagates and the acquired context is not returned. -/
theorem c3_release (e : Engine) (pool : List Context) (hb : Engine.built e = true) :
    Engine.serveHTTPPool e pool false false = Except.ok (pool.drop 1 ++ [Context.reset]) ∧
    Engine.serveHTTPPool e pool false true = Except.error (pool.drop 1) := by
  constructor <;> simp [Engine.serveHTTPPool, hb]

/-- C3 witness: the release behaviour at a singleton pool. -/
theorem c3_witness :
    Engine.serveHTTPPool frozenGetX [Context.reset] false false =
      Except.ok ([Context.reset].drop 1 ++ [Context.reset]) ∧
    Engine.serveHTTPPool frozenGetX [Context.reset] false true =
      Except.error ([Context.reset].drop 1) :=
  c3_release frozenGetX [Context.reset] rfl

/-! ## Claim C7: Mount guards -/

/-- C7: mounting a nil handler fails, and mounting onto a pattern whose
wildcard prefix already resolves in the tree fails; an error result carries
no router, so the tree is not extended in either case. -/
theorem c7_mount_guard (e : Engine) (pattern : String) (arg : MountArg) (mh : Nat) :
    (∃ msg, Engine.Mount e pattern MountArg.nilH mh = Except.error msg) ∧
    ((findPatternStr e.treeOf (pattern ++ "*") ||
        findPatternStr e.treeOf (pattern ++ "/*")) = true →
      ∃ msg, Engine.Mount e pattern arg mh = Except.error msg) := by
  constructor
  · exact ⟨_, rfl⟩
  · intro hfp
    cases arg with
    | nilH => exact ⟨_, rfl⟩
    | plainH h =>
      exact ⟨"chi: attempting to Mount a handler on an existing path " ++ pattern,
        by simp [Engine.Mount, hfp]⟩
    | routerH s =>
      exact ⟨"chi: attempting to Mount a handler on an existing path " ++ pattern,
        by simp [Engine.Mount, hfp]⟩

/-- A sub-router with one GET route, used by the mount scenarios. -/
def subWidgets : Engine := Engine.ofExcept (Engine.new.handleReg mGET "/widgets/{id}" 7)

/-- A parent router with subWidgets mounted at /api under mount handler 100. -/
def parentApi : Engine :=
  Engine.ofExcept (Engine.Mount Engine.new "/api" (MountArg.routerH subWidgets) 100)

/-- C7 witness: mounting again at /api is rejected, since the wildcard
prefix of the first mount already resolves in the tree. -/
theorem c7_witness :
    (∃ msg, Engine.Mount parentApi "/api" MountArg.nilH 101 = Except.error msg) ∧
    ∃ msg, Engine.Mount parentApi "/api" (MountArg.routerH Engine.new) 101 =
      Except.error msg :=
  ⟨(c7_mount_guard parentApi "/api" (MountArg.routerH Engine.new) 101).1,
   (c7_mount_guard parentApi "/api" (MountArg.routerH Engine.new) 101).2 (by decide)⟩

/-! ## Claim C4: mount delegation state -/

/-- C4: after the parent resolves GET /api/widgets/7 to the mount handler,
the mount handler step leaves the match state that the sub-router starts
from with remaining route path /widgets/7 and with the parent-level
wildcard binding of the in-flight parameter stack carrying widgets/7; the
finalized wildcard URLParam value is reset to the empty string by the same
step, which is what connects the sub-router. -/
theorem c4_mount_delegation :
    (Engine.routeHTTPClass rxNone parentApi "GET" "/api/widgets/7" Context.reset).2 =
      Classification.matched 100 ∧
    (mountHandlerStep
        (Engine.routeHTTPClass rxNone parentApi "GET" "/api/widgets/7" Context.reset).1).RoutePath =
      "/widgets/7" ∧
    (mountHandlerStep
        (Engine.routeHTTPClass rxNone parentApi "GET" "/api/widgets/7" Context.reset).1).routeParams.Keys.getLast? =
      Option.some "*" ∧
    (mountHandlerStep
        (Engine.routeHTTPClass rxNone parentApi "GET" "/api/widgets/7" Context.reset).1).routeParams.Values.getLast? =
      Option.some "widgets/7" :=
  ⟨rfl, rfl, rfl, rfl⟩

/-! ## Backtracking lemmas: flag discipline, success characterisation -/

theorem tryStaticF_none_flag (go : Node → RouteParams → Bool → FindRes) (P : Node → Bool)
    (hgo : ∀ c ps f, (go c ps f).2 = Option.none → (go c ps f).1 = (f || P c)) :
    ∀ (nm : NodeMap) (s : String) (ps : RouteParams) (f : Bool),
      (tryStaticF go nm s ps f).2 = Option.none →
      (tryStaticF go nm s ps f).1 = (f || anyStaticB P nm s)
  | .nil, s, ps, f, h => by simp [tryStaticF, anyStaticB]
  | .cons k c tl, s, ps, f, h => by
    by_cases hk : k = s
    · simp only [tryStaticF, anyStaticB, if_pos hk] at h ⊢
      rcases hgo2 : go c ps f with ⟨fa, ra⟩
      rw [hgo2] at h
      rcases ra with _ | ra
      · dsimp only at h ⊢
        have hfa : fa = (f || P c) := by
          have h2 := hgo c ps f (by rw [hgo2])
          rw [hgo2] at h2
          exact h2
        rw [tryStaticF_none_flag go P hgo tl s ps fa h, hfa, Bool.or_assoc]
      · simp at h
    · simp only [tryStaticF, anyStaticB, if_neg hk] at h ⊢
      rw [tryStaticF_none_flag go P hgo tl s ps f h]
      simp

theorem tryRexF_none_flag (rx : String → String → Bool)
    (go : Node → RouteParams → Bool → FindRes) (P : Node → Bool)
    (hgo : ∀ c ps f, (go c ps f).2 = Option.none → (go c ps f).1 = (f || P c)) :
    ∀ (rl : RexList) (s : String) (ps : RouteParams) (f : Bool),
      (tryRexF rx go rl s ps f).2 = Option.none →
      (tryRexF rx go rl s ps f).1 = (f || anyRexMatchB rx P rl s)
  | .nil, s, ps, f, h => by simp [tryRexF, anyRexMatchB]
  | .cons nm ex c tl, s, ps, f, h => by
    by_cases hx : rx ex s
    · simp only [tryRexF, anyRexMatchB, if_pos hx] at h ⊢
      rcases hgo2 : go c (ps.push nm s) f with ⟨fa, ra⟩
      rw [hgo2] at h
      rcases ra with _ | ra
      · dsimp only at h ⊢
        have hfa : fa = (f || P c) := by
          have h2 := hgo c (ps.push nm s) f (by rw [hgo2])
          rw [hgo2] at h2
          exact h2
        rw [tryRexF_none_flag rx go P hgo tl s ps fa h, hfa, Bool.or_assoc]
      · simp at h
    · simp only [tryRexF, anyRexMatchB, if_neg hx] at h ⊢
      rw [tryRexF_none_flag rx go P hgo tl s ps f h]
      simp

theorem tryStaticF_isSome (go : Node → RouteParams → Bool → FindRes) (P : Node → Bool)
    (hgo : ∀ c ps f, ((go c ps f).2).isSome = P c) :
    ∀ (nm : NodeMap) (s : String) (ps : RouteParams) (f : Bool),
      ((tryStaticF go nm s ps f).2).isSome = anyStaticB P nm s
  | .nil, s, ps, f => by simp [tryStaticF, anyStaticB]
  | .cons k c tl, s, ps, f => by
    by_cases hk : k = s
    · simp only [tryStaticF, anyStaticB, if_pos hk]
      rcases hgo2 : go c ps f with ⟨fa, ra⟩
      have hP : P c = ra.isSome := by
        rw [← hgo c ps f, hgo2]
      rcases ra with _ | ra
      · dsimp only
        rw [tryStaticF_isSome go P hgo tl s ps fa, hP]
        simp
      · simp [hP]
    · simp only [tryStaticF, anyStaticB, if_neg hk]
      rw [tryStaticF_isSome go P hgo tl s ps f]
      simp

theorem tryRexF_isSome (rx : String → String → Bool)
    (go : Node → RouteParams → Bool → FindRes) (P : Node → Bool)
    (hgo : ∀ c ps f, ((go c ps f).2).isSome = P c) :
    ∀ (rl : RexList) (s : String) (ps : RouteParams) (f : Bool),
      ((tryRexF rx go rl s ps f).2).isSome = anyRexMatchB rx P rl s
  | .nil, s, ps, f => by simp [tryRexF, anyRexMatchB]
  | .cons nm ex c tl, s, ps, f => by
    by_cases hx : rx ex s
    · simp only [tryRexF, anyRexMatchB, if_pos hx]
      rcases hgo2 : go c (ps.push nm s) f with ⟨fa, ra⟩
      have hP : P c = ra.isSome := by
        rw [← hgo c (ps.push nm s) f, hgo2]
      rcases ra with _ | ra
      · dsimp only
        rw [tryRexF_isSome rx go P hgo tl s ps fa, hP]
        simp
      · simp [hP]
    · simp only [tryRexF, anyRexMatchB, if_neg hx]
      rw [tryRexF_isSome rx go P hgo tl s ps f]
      simp

theorem tryStaticF_some (go : Node → RouteParams → Bool → FindRes) :
    ∀ (nm : NodeMap) (s : String) (ps : RouteParams) (f f' : Bool)
      (r : RouteParams × Nat × OptEngine),
      tryStaticF go nm s ps f = (f', Option.some r) →
      ∃ c f0, (s, c) ∈ NodeMap.entries nm ∧ go c ps f0 = (f', Option.some r)
  | .nil, s, ps, f, f', r, h => by simp [tryStaticF] at h
  | .cons k c tl, s, ps, f, f', r, h => by
    by_cases hk : k = s
    · simp only [tryStaticF, if_pos hk] at h
      rcases hgo2 : go c ps f with ⟨fa, ra⟩
      rw [hgo2] at h
      rcases ra with _ | ra
      · dsimp only at h
        obtain ⟨c', f0, hmem, hg⟩ := tryStaticF_some go tl s ps fa f' r h
        exact ⟨c', f0, by simp [NodeMap.entries, hmem], hg⟩
      · dsimp only at h
        rcases h with ⟨rfl, rfl⟩
        exact ⟨c, f, by simp [NodeMap.entries, hk], hgo2⟩
    · simp only [tryStaticF, if_neg hk] at h
      obtain ⟨c', f0, hmem, hg⟩ := tryStaticF_some go tl s ps f f' r h
      exact ⟨c', f0, by simp [NodeMap.entries, hmem], hg⟩

theorem tryRexF_some (rx : String → String → Bool)
    (go : Node → RouteParams → Bool → FindRes) :
    ∀ (rl : RexList) (s : String) (ps : RouteParams) (f f' : Bool)
      (r : RouteParams × Nat × OptEngine),
      tryRexF rx go rl s ps f = (f', Option.some r) →
      ∃ nm ex c f0, (nm, ex, c) ∈ RexList.entries rl ∧ rx ex s = true ∧
        go c (ps.push nm s) f0 = (f', Option.some r)
  | .nil, s, ps, f, f', r, h => by simp [tryRexF] at h
  | .cons nm ex c tl, s, ps, f, f', r, h => by
    by_cases hx : rx ex s
    · simp only [tryRexF, if_pos hx] at h
      rcases hgo2 : go c (ps.push nm s) f with ⟨fa, ra⟩
      rw [hgo2] at h
      rcases ra with _ | ra
      · dsimp only at h
        obtain ⟨nm', ex', c', f0, hmem, hx', hg⟩ := tryRexF_some rx go tl s ps fa f' r h
        exact ⟨nm', ex', c', f0, by simp [RexList.entries, hmem], hx', hg⟩
      · dsimp only at h
        rcases h with ⟨rfl, rfl⟩
        exact ⟨nm, ex, c, f, by simp [RexList.entries], hx, hgo2⟩
    · simp only [tryRexF, if_neg hx] at h
      obtain ⟨nm', ex', c', f0, hmem, hx', hg⟩ := tryRexF_some rx go tl s ps f f' r h
      exact ⟨nm', ex', c', f0, by simp [RexList.entries, hmem], hx', hg⟩

theorem anyStaticB_mono (P Q : Node → Bool) (hPQ : ∀ c, P c = true → Q c = true) :
    ∀ (nm : NodeMap) (s : String), anyStaticB P nm s = true → anyStaticB Q nm s = true
  | .nil, s, h => by simp [anyStaticB] at h
  | .cons k c tl, s, h => by
    simp only [anyStaticB, Bool.or_eq_true] at h ⊢
    rcases h with h | h
    · left
      by_cases hk : k = s
      · rw [if_pos hk] at h ⊢
        exact hPQ c h
      · rw [if_neg hk] at h
        exact absurd h (by simp)
    · exact Or.inr (anyStaticB_mono P Q hPQ tl s h)

theorem anyRexMatchB_mono (rx : String → String → Bool) (P Q : Node → Bool)
    (hPQ : ∀ c, P c = true → Q c = true) :
    ∀ (rl : RexList) (s : String),
      anyRexMatchB rx P rl s = true → anyRexMatchB rx Q rl s = true
  | .nil, s, h => by simp [anyRexMatchB] at h
  | .cons nm ex c tl, s, h => by
    simp only [anyRexMatchB, Bool.or_eq_true] at h ⊢
    rcases h with h | h
    · left
      by_cases hx : rx ex s
      · rw [if_pos hx] at h ⊢
        exact hPQ c h
      · rw [if_neg hx] at h
        exact absurd h (by simp)
    · exact Or.inr (anyRexMatchB_mono rx P Q hPQ tl s h)

/-- On total failure the method-not-allowed flag reads exactly: the input
flag, or some pattern fully matches the segments while the walk found no
applicable method entry anywhere. -/
theorem findRouteCoreF_none_flag (rx : String → String → Bool) (m : Nat) :
    ∀ (fu : Nat) (n : Node) (segs : List String) (ps : RouteParams) (f : Bool),
      (findRouteCoreF rx m fu n segs ps f).2 = Option.none →
      (findRouteCoreF rx m fu n segs ps f).1 = (f || pathMatchesF rx fu n segs) := by
  intro fu
  induction fu with
  | zero =>
    intro n segs ps f h
    cases segs with
    | nil =>
      simp only [findRouteCoreF, pathMatchesF] at h ⊢
      rcases hep : epValue n.endpointsOf m with _ | h0
      · rfl
      · rw [hep] at h
        simp at h
    | cons s rest => simp [findRouteCoreF, pathMatchesF]
  | succ fu ih =>
    intro n segs ps f h
    cases segs with
    | nil =>
      simp only [findRouteCoreF, pathMatchesF] at h ⊢
      rcases hep : epValue n.endpointsOf m with _ | h0
      · rfl
      · rw [hep] at h
        simp at h
    | cons s rest =>
      simp only [findRouteCoreF, pathMatchesF] at h ⊢
      rcases h1 : tryStaticF (fun c ps' f' => findRouteCoreF rx m fu c rest ps' f')
          n.staticsOf s ps f with ⟨f1, r1⟩
      rw [h1] at h
      rcases r1 with _ | r1
      · dsimp only at h ⊢
        have hf1 : f1 = (f || anyStaticB (fun c => pathMatchesF rx fu c rest) n.staticsOf s) := by
          have hcall := tryStaticF_none_flag (fun c ps' f' => findRouteCoreF rx m fu c rest ps' f')
            (fun c => pathMatchesF rx fu c rest)
            (fun c ps' f' h' => ih c rest ps' f' h') n.staticsOf s ps f (by rw [h1])
          rw [h1] at hcall
          exact hcall
        rcases h2 : tryRexF rx (fun c ps' f' => findRouteCoreF rx m fu c rest ps' f')
            n.rexesOf s ps f1 with ⟨f2, r2⟩
        rw [h2] at h
        rcases r2 with _ | r2
        · dsimp only at h ⊢
          have hf2 : f2 = (f1 || anyRexMatchB rx (fun c => pathMatchesF rx fu c rest) n.rexesOf s) := by
            have hcall := tryRexF_none_flag rx (fun c ps' f' => findRouteCoreF rx m fu c rest ps' f')
              (fun c => pathMatchesF rx fu c rest)
              (fun c ps' f' h' => ih c rest ps' f' h') n.rexesOf s ps f1 (by rw [h2])
            rw [h2] at hcall
            exact hcall
          rcases hp : n.paramcOf with _ | ⟨nm, c⟩
          · rw [hp] at h
            dsimp only at h ⊢
            rcases hw : n.wildcOf with _ | c
            · rw [hw] at h
              dsimp only at h ⊢
              rw [hf2, hf1]
              simp [Bool.or_assoc]
            · rw [hw] at h
              dsimp only at h ⊢
              rcases hep : epValue c.endpointsOf m with _ | h0
              · rw [hep] at h
                dsimp only at h ⊢
                rw [hf2, hf1]
                simp [Bool.or_assoc]
              · rw [hep] at h
                simp at h
          · rw [hp] at h
            dsimp only at h ⊢
            rcases h3 : findRouteCoreF rx m fu c rest (ps.push nm s) f2 with ⟨f3, r3⟩
            rw [h3] at h
            rcases r3 with _ | r3
            · dsimp only at h ⊢
              have hf3 : f3 = (f2 || pathMatchesF rx fu c rest) := by
                have hcall := ih c rest (ps.push nm s) f2 (by rw [h3])
                rw [h3] at hcall
                exact hcall
              rcases hw : n.wildcOf with _ | c'
              · rw [hw] at h
                dsimp only at h ⊢
                rw [hf3, hf2, hf1]
                simp [Bool.or_assoc]
              · rw [hw] at h
                dsimp only at h ⊢
                rcases hep : epValue c'.endpointsOf m with _ | h0
                · rw [hep] at h
                  dsimp only at h ⊢
                  rw [hf3, hf2, hf1]
                  simp [Bool.or_assoc]
                · rw [hep] at h
                  simp at h
            · simp at h
        · simp at h
      · simp at h

/-- Success of the core walk is exactly method-aware reachability, at every
fuel, independent of the parameter stack and the incoming flag. -/
theorem findRouteCoreF_isSome (rx : String → String → Bool) (m : Nat) :
    ∀ (fu : Nat) (n : Node) (segs : List String) (ps : RouteParams) (f : Bool),
      ((findRouteCoreF rx m fu n segs ps f).2).isSome = pathMethodF rx m fu n segs := by
  intro fu
  induction fu with
  | zero =>
    intro n segs ps f
    cases segs with
    | nil =>
      rcases hep : epValue n.endpointsOf m with _ | h0 <;>
        simp [findRouteCoreF, pathMethodF, hep]
    | cons s rest => simp [findRouteCoreF, pathMethodF]
  | succ fu ih =>
    intro n segs ps f
    cases segs with
    | nil =>
      rcases hep : epValue n.endpointsOf m with _ | h0 <;>
        simp [findRouteCoreF, pathMethodF, hep]
    | cons s rest =>
      rcases h1 : tryStaticF (fun c ps' f' => findRouteCoreF rx m fu c rest ps' f')
          n.staticsOf s ps f with ⟨f1, r1⟩
      have hs1 : r1.isSome = anyStaticB (fun c => pathMethodF rx m fu c rest) n.staticsOf s := by
        have hcall := tryStaticF_isSome (fun c ps' f' => findRouteCoreF rx m fu c rest ps' f')
          (fun c => pathMethodF rx m fu c rest) (fun c ps' f' => ih c rest ps' f')
          n.staticsOf s ps f
        rw [h1] at hcall
        exact hcall
      rcases r1 with _ | r1
      · rcases h2 : tryRexF rx (fun c ps' f' => findRouteCoreF rx m fu c rest ps' f')
            n.rexesOf s ps f1 with ⟨f2, r2⟩
        have hs2 : r2.isSome = anyRexMatchB rx (fun c => pathMethodF rx m fu c rest)
            n.rexesOf s := by
          have hcall := tryRexF_isSome rx (fun c ps' f' => findRouteCoreF rx m fu c rest ps' f')
            (fun c => pathMethodF rx m fu c rest) (fun c ps' f' => ih c rest ps' f')
            n.rexesOf s ps f1
          rw [h2] at hcall
          exact hcall
        rcases r2 with _ | r2
        · rcases hp : n.paramcOf with _ | ⟨nm, c⟩
          · rcases hw : n.wildcOf with _ | c
            · simp [findRouteCoreF, pathMethodF, h1, h2, hp, hw, ← hs1, ← hs2]
            · rcases hep : epValue c.endpointsOf m with _ | h0 <;>
                simp [findRouteCoreF, pathMethodF, h1, h2, hp, hw, hep, ← hs1, ← hs2]
          · rcases h3 : findRouteCoreF rx m fu c rest (ps.push nm s) f2 with ⟨f3, r3⟩
            have hs3 : r3.isSome = pathMethodF rx m fu c rest := by
              have hcall := ih c rest (ps.push nm s) f2
              rw [h3] at hcall
              exact hcall
            rcases r3 with _ | r3
            · rcases hw : n.wildcOf with _ | c'
              · simp [findRouteCoreF, pathMethodF, h1, h2, hp, h3, hw, ← hs1, ← hs2, ← hs3]
              · rcases hep : epValue c'.endpointsOf m with _ | h0 <;>
                  simp [findRouteCoreF, pathMethodF, h1, h2, hp, h3, hw, hep,
                    ← hs1, ← hs2, ← hs3]
            · simp [findRouteCoreF, pathMethodF, h1, h2, hp, h3, ← hs1, ← hs2, ← hs3]
        · simp [findRouteCoreF, pathMethodF, h1, h2, ← hs1, ← hs2]
      · simp [findRouteCoreF, pathMethodF, h1, ← hs1]

/-- Method-aware reachability implies method-agnostic reachability. -/
theorem pathMethodF_le_pathMatchesF (rx : String → String → Bool) (m : Nat) :
    ∀ (fu : Nat) (n : Node) (segs : List String),
      pathMethodF rx m fu n segs = true → pathMatchesF rx fu n segs = true := by
  intro fu
  induction fu with
  | zero =>
    intro n segs h
    cases segs with
    | nil =>
      simp only [pathMethodF, pathMatchesF] at h ⊢
      cases heps : n.endpointsOf with
      | nil => rw [heps] at h; simp [epValue, epLookup] at h
      | cons e tl => simp [heps]
    | cons s rest => simp [pathMethodF] at h
  | succ fu ih =>
    intro n segs h
    cases segs with
    | nil =>
      simp only [pathMethodF, pathMatchesF] at h ⊢
      cases heps : n.endpointsOf with
      | nil => rw [heps] at h; simp [epValue, epLookup] at h
      | cons e tl => simp [heps]
    | cons s rest =>
      simp only [pathMethodF, pathMatchesF, Bool.or_eq_true] at h ⊢
      rcases h with h | h
      · exact Or.inl (anyStaticB_mono _ _ (fun c hc => ih c rest hc) n.staticsOf s h)
      rcases h with h | h
      · exact Or.inr (Or.inl (anyRexMatchB_mono rx _ _ (fun c hc => ih c rest hc) n.rexesOf s h))
      rcases h with h | h
      · refine Or.inr (Or.inr (Or.inl ?_))
        rcases hp : n.paramcOf with _ | ⟨nm, c⟩
        · rw [hp] at h
          simp at h
        · rw [hp] at h
          dsimp only at h ⊢
          exact ih c rest h
      · refine Or.inr (Or.inr (Or.inr ?_))
        rcases hw : n.wildcOf with _ | c
        · rw [hw] at h
          simp at h
        · rw [hw] at h
          dsimp only at h ⊢
          have h' : pathMethodF rx m fu c [] = true := by
            simp only [pathMethodF]
            exact h
          have h2 := ih c [] h'
          simp only [pathMatchesF] at h2
          exact h2

/-! ## Winning-path relation and the parameter-stack theorem -/

/-- Declarative description of a winning match: a root-to-terminal walk of
the tree that fully consumes the segments and ends at an applicable method
entry, collecting exactly one binding per regex, named-param or wildcard
segment of the winning path, in outer-to-inner order. -/
inductive WinsWith (rx : String → String → Bool) (m : Nat) :
    Node → List String → List (String × String) → Prop where
  | here (n : Node) (h : Nat) (hh : epValue n.endpointsOf m = Option.some h) :
      WinsWith rx m n [] []
  | stat (n : Node) (s : String) (rest : List String) (c : Node)
      (bs : List (String × String)) (hc : (s, c) ∈ NodeMap.entries n.staticsOf)
      (hw : WinsWith rx m c rest bs) : WinsWith rx m n (s :: rest) bs
  | rexc (n : Node) (s : String) (rest : List String) (nm ex : String) (c : Node)
      (bs : List (String × String)) (hc : (nm, ex, c) ∈ RexList.entries n.rexesOf)
      (hx : rx ex s = true) (hw : WinsWith rx m c rest bs) :
      WinsWith rx m n (s :: rest) ((nm, s) :: bs)
  | par (n : Node) (s : String) (rest : List String) (nm : String) (c : Node)
      (bs : List (String × String)) (hc : n.paramcOf = OptParamChild.some nm c)
      (hw : WinsWith rx m c rest bs) : WinsWith rx m n (s :: rest) ((nm, s) :: bs)
  | wildc (n : Node) (s : String) (rest : List String) (c : Node)
      (hc : n.wildcOf = OptNode.some c) (hw : WinsWith rx m c [] []) :
      WinsWith rx m n (s :: rest) [("*", joinPath (s :: rest))]

/-- A successful core walk realises a winning path, and the resulting
parameter stack is exactly the incoming stack extended by the bindings of
that winning path, in order: nothing pushed by an abandoned branch
survives. -/
theorem findRouteCoreF_some_params (rx : String → String → Bool) (m : Nat) :
    ∀ (fu : Nat) (n : Node) (segs : List String) (ps : RouteParams) (f f' : Bool)
      (rp : RouteParams) (h : Nat) (sub : OptEngine),
      findRouteCoreF rx m fu n segs ps f = (f', Option.some (rp, h, sub)) →
      ∃ bs : List (String × String), WinsWith rx m n segs bs ∧
        rp.Keys = ps.Keys ++ bs.map Prod.fst ∧
        rp.Values = ps.Values ++ bs.map Prod.snd := by
  intro fu
  induction fu with
  | zero =>
    intro n segs ps f f' rp h sub hmain
    cases segs with
    | nil =>
      simp only [findRouteCoreF] at hmain
      rcases hep : epValue n.endpointsOf m with _ | h0
      · rw [hep] at hmain
        simp at hmain
      · rw [hep] at hmain
        simp only [Prod.mk.injEq, Option.some.injEq] at hmain
        obtain ⟨hf, hps, hh, hsub⟩ := hmain
        refine ⟨[], ?_, ?_, ?_⟩
        · rw [hh] at hep
          exact WinsWith.here n h hep
        · rw [← hps]
          simp
        · rw [← hps]
          simp
    | cons s rest =>
      simp [findRouteCoreF] at hmain
  | succ fu ih =>
    intro n segs ps f f' rp h sub hmain
    cases segs with
    | nil =>
      simp only [findRouteCoreF] at hmain
      rcases hep : epValue n.endpointsOf m with _ | h0
      · rw [hep] at hmain
        simp at hmain
      · rw [hep] at hmain
        simp only [Prod.mk.injEq, Option.some.injEq] at hmain
        obtain ⟨hf, hps, hh, hsub⟩ := hmain
        refine ⟨[], ?_, ?_, ?_⟩
        · rw [hh] at hep
          exact WinsWith.here n h hep
        · rw [← hps]
          simp
        · rw [← hps]
          simp
    | cons s rest =>
      simp only [findRouteCoreF] at hmain
      rcases h1 : tryStaticF (fun c ps' f0 => findRouteCoreF rx m fu c rest ps' f0)
          n.staticsOf s ps f with ⟨f1, r1⟩
      rw [h1] at hmain
      rcases r1 with _ | r1
      · dsimp only at hmain
        rcases h2 : tryRexF rx (fun c ps' f0 => findRouteCoreF rx m fu c rest ps' f0)
            n.rexesOf s ps f1 with ⟨f2, r2⟩
        rw [h2] at hmain
        rcases r2 with _ | r2
        · dsimp only at hmain
          rcases hp : n.paramcOf with _ | ⟨nm, c⟩
          · rw [hp] at hmain
            dsimp only at hmain
            rcases hw : n.wildcOf with _ | c'
            · rw [hw] at hmain
              simp at hmain
            · rw [hw] at hmain
              dsimp only at hmain
              rcases hep : epValue c'.endpointsOf m with _ | h0
              · rw [hep] at hmain
                simp at hmain
              · rw [hep] at hmain
                simp only [Prod.mk.injEq, Option.some.injEq] at hmain
                obtain ⟨hf, hps, hh, hsub⟩ := hmain
                refine ⟨[("*", joinPath (s :: rest))], ?_, ?_, ?_⟩
                · rw [hh] at hep
                  exact WinsWith.wildc n s rest c' hw (WinsWith.here c' h hep)
                · rw [← hps]
                  simp [RouteParams.push]
                · rw [← hps]
                  simp [RouteParams.push]
          · rw [hp] at hmain
            dsimp only at hmain
            rcases h3 : findRouteCoreF rx m fu c rest (ps.push nm s) f2 with ⟨f3, r3⟩
            rw [h3] at hmain
            rcases r3 with _ | r3
            · dsimp only at hmain
              rcases hw : n.wildcOf with _ | c'
              · rw [hw] at hmain
                simp at hmain
              · rw [hw] at hmain
                dsimp only at hmain
                rcases hep : epValue c'.endpointsOf m with _ | h0
                · rw [hep] at hmain
                  simp at hmain
                · rw [hep] at hmain
                  simp only [Prod.mk.injEq, Option.some.injEq] at hmain
                  obtain ⟨hf, hps, hh, hsub⟩ := hmain
                  refine ⟨[("*", joinPath (s :: rest))], ?_, ?_, ?_⟩
                  · rw [hh] at hep
                    exact WinsWith.wildc n s rest c' hw (WinsWith.here c' h hep)
                  · rw [← hps]
                    simp [RouteParams.push]
                  · rw [← hps]
                    simp [RouteParams.push]
            · dsimp only at hmain
              simp only [Prod.mk.injEq, Option.some.injEq] at hmain
              obtain ⟨hf, hr⟩ := hmain
              rw [hr] at h3
              obtain ⟨bs, win, hk, hv⟩ := ih c rest (ps.push nm s) f2 f3 rp h sub h3
              refine ⟨(nm, s) :: bs, WinsWith.par n s rest nm c bs hp win, ?_, ?_⟩
              · rw [hk]
                simp [RouteParams.push]
              · rw [hv]
                simp [RouteParams.push]
        · dsimp only at hmain
          simp only [Prod.mk.injEq, Option.some.injEq] at hmain
          obtain ⟨hf, hr⟩ := hmain
          rw [hr] at h2
          obtain ⟨nm', ex', c, f0, hmem, hx, hgo⟩ :=
            tryRexF_some rx _ n.rexesOf s ps f1 f2 (rp, h, sub) h2
          obtain ⟨bs, win, hk, hv⟩ := ih c rest (ps.push nm' s) f0 f2 rp h sub hgo
          refine ⟨(nm', s) :: bs, WinsWith.rexc n s rest nm' ex' c bs hmem hx win, ?_, ?_⟩
          · rw [hk]
            simp [RouteParams.push]
          · rw [hv]
            simp [RouteParams.push]
      · dsimp only at hmain
        simp only [Prod.mk.injEq, Option.some.injEq] at hmain
        obtain ⟨hf, hr⟩ := hmain
        rw [hr] at h1
        obtain ⟨c, f0, hmem, hgo⟩ := tryStaticF_some _ n.staticsOf s ps f f1 (rp, h, sub) h1
        obtain ⟨bs, win, hk, hv⟩ := ih c rest ps f0 f1 rp h sub hgo
        exact ⟨bs, WinsWith.stat n s rest c bs hmem win, hk, hv⟩

/-! ## Claim C9: finalized parameters of a backtracked success -/

/-- C9: whenever FindRoute succeeds, after any amount of backtracking, the
finalized URLParams lists are extended by exactly the bindings of the
winning path, one per regex, named-param or wildcard segment, in
outer-to-inner order, with nothing left over from abandoned branches. -/
theorem c9_params_exact (rx : String → String → Bool) (t : Node) (m : Nat)
    (ctx : Context) (path : String) (ctx' : Context) (h : Nat) (sub : OptEngine)
    (hfr : FindRoute rx t m ctx path = (ctx', Option.some (h, sub))) :
    ∃ bs : List (String × String), WinsWith rx m t (pathSegs path) bs ∧
      ctx'.URLParams.Keys = ctx.URLParams.Keys ++ bs.map Prod.fst ∧
      ctx'.URLParams.Values = ctx.URLParams.Values ++ bs.map Prod.snd := by
  unfold FindRoute findRouteCore at hfr
  rcases hcore : findRouteCoreF rx m (pathSegs path).length t (pathSegs path) ⟨[], []⟩
      ctx.methodNotAllowed with ⟨f, r⟩
  rw [hcore] at hfr
  rcases r with _ | ⟨rp, h0, sub0⟩
  · simp at hfr
  · dsimp only at hfr
    simp only [Prod.mk.injEq, Option.some.injEq] at hfr
    obtain ⟨hctx, hh, hsub⟩ := hfr
    obtain ⟨bs, win, hk, hv⟩ :=
      findRouteCoreF_some_params rx m (pathSegs path).length t (pathSegs path) ⟨[], []⟩
        ctx.methodNotAllowed f rp h0 sub0 hcore
    refine ⟨bs, win, ?_, ?_⟩
    · rw [← hctx]
      simp only
      rw [hk]
      simp
    · rw [← hctx]
      simp only
      rw [hv]
      simp

/-- Tree of the C9 witness scenario: the static route /a/b and the
parameter route with a literal tail are both registered for GET, so the
lookup of /a/b/c first descends the static branch, fails, backtracks, and
succeeds through the parameter branch. -/
def backtrackTree : Node :=
  insertSegs mGET 5 OptEngine.none [Seg.lit "a", Seg.lit "b"]
    (insertSegs mGET 9 OptEngine.none [Seg.lit "a", Seg.param "x", Seg.lit "c"] emptyNode)

/-- Result of the C9 witness lookup. -/
def backtrackRes : Context × Option (Nat × OptEngine) :=
  FindRoute rxNone backtrackTree mGET Context.reset "/a/b/c"

/-- Sub-router component of the C9 witness result. -/
def backtrackSub : OptEngine :=
  match backtrackRes.2 with
  | Option.some (_, sb) => sb
  | Option.none => OptEngine.none

/-- C9 witness: the backtracked success at /a/b/c finalizes exactly the
binding of the winning parameter segment. -/
theorem c9_witness :
    ∃ bs : List (String × String), WinsWith rxNone mGET backtrackTree (pathSegs "/a/b/c") bs ∧
      backtrackRes.1.URLParams.Keys = Context.reset.URLParams.Keys ++ bs.map Prod.fst ∧
      backtrackRes.1.URLParams.Values = Context.reset.URLParams.Values ++ bs.map Prod.snd :=
  c9_params_exact rxNone backtrackTree mGET Context.reset "/a/b/c" backtrackRes.1 9
    backtrackSub rfl

/-! ## Claim C1: dispatch-time miss classification -/

/-- Effective routing path of a request URL, as routeHTTP computes it for a
fresh context. -/
def normPath (url : String) : String := if url = "" then "/" else url

/-- C1 counterexample: on a router holding only GET /x, a request with the
unregistered method BREW for the unmatched path /y is classified
method-not-allowed although no pattern matches /y, where the claimed rule
requires not-found. -/
theorem c1_counterexample :
    (Engine.routeHTTPClass rxNone frozenGetX "BREW" "/y" Context.reset).2 =
      Classification.methodNotAllowed ∧
    pathMatches rxNone frozenGetX.treeOf (normPath "/y") = false ∧
    lookupStr methodMap "BREW" = Option.none :=
  ⟨rfl, rfl, rfl⟩

/-- C1 amended: for a request whose method is in the registry, routeHTTP
invokes the not-found handler exactly when no pattern matches the path and
the method-not-allowed handler exactly when some pattern matches the path
but no applicable entry exists for the method; a request whose method is
not in the registry short-circuits to the method-not-allowed handler
without consulting the tree, even when no pattern matches the path. -/
theorem c1_dispatch_classification (rx : String → String → Bool) (e : Engine)
    (rm url : String) :
    (∀ mv, lookupStr methodMap rm = Option.some mv →
      (((Engine.routeHTTPClass rx e rm url Context.reset).2 = Classification.notFound) ↔
        pathMatches rx e.treeOf (normPath url) = false) ∧
      (((Engine.routeHTTPClass rx e rm url Context.reset).2 =
          Classification.methodNotAllowed) ↔
        (pathMatches rx e.treeOf (normPath url) = true ∧
         pathMethodMatches rx mv e.treeOf (normPath url) = false))) ∧
    (lookupStr methodMap rm = Option.none →
      (Engine.routeHTTPClass rx e rm url Context.reset).2 =
        Classification.methodNotAllowed) := by
  constructor
  · intro mv hm
    simp only [pathMatches, pathMethodMatches, normPath]
    rcases hcore : findRouteCoreF rx mv (pathSegs (if url = "" then "/" else url)).length
        e.treeOf (pathSegs (if url = "" then "/" else url)) ⟨[], []⟩ false with ⟨f, r⟩
    have hSome : r.isSome = pathMethodF rx mv
        (pathSegs (if url = "" then "/" else url)).length e.treeOf
        (pathSegs (if url = "" then "/" else url)) := by
      have hcall := findRouteCoreF_isSome rx mv
        (pathSegs (if url = "" then "/" else url)).length e.treeOf
        (pathSegs (if url = "" then "/" else url)) ⟨[], []⟩ false
      rw [hcore] at hcall
      exact hcall
    rcases r with _ | ⟨rp, h0, sub0⟩
    · have hflag : f = pathMatchesF rx (pathSegs (if url = "" then "/" else url)).length
          e.treeOf (pathSegs (if url = "" then "/" else url)) := by
        have hcall := findRouteCoreF_none_flag rx mv
          (pathSegs (if url = "" then "/" else url)).length e.treeOf
          (pathSegs (if url = "" then "/" else url)) ⟨[], []⟩ false (by rw [hcore])
        rw [hcore] at hcall
        simpa using hcall
      have hclass : (Engine.routeHTTPClass rx e rm url Context.reset).2 =
          (if f then Classification.methodNotAllowed else Classification.notFound) := by
        simp [Engine.routeHTTPClass, FindRoute, findRouteCore, Context.reset, hm, hcore]
      rw [hclass]
      cases f with
      | false => simp [hflag.symm, hSome.symm]
      | true => simp [hflag.symm, hSome.symm]
    · have hclass : (Engine.routeHTTPClass rx e rm url Context.reset).2 =
          Classification.matched h0 := by
        simp [Engine.routeHTTPClass, FindRoute, findRouteCore, Context.reset, hm, hcore]
      have hpmT : pathMethodF rx mv (pathSegs (if url = "" then "/" else url)).length
          e.treeOf (pathSegs (if url = "" then "/" else url)) = true := by
        rw [← hSome]
        rfl
      have hpmm := pathMethodF_le_pathMatchesF rx mv
        (pathSegs (if url = "" then "/" else url)).length e.treeOf
        (pathSegs (if url = "" then "/" else url)) hpmT
      rw [hclass]
      simp [hpmT, hpmm]
  · intro hm
    simp [Engine.routeHTTPClass, Context.reset, hm]

/-- C1 witness: on the router holding GET /x, the registered method GET at
the matched path /x and at the unmatched path /y realise both sides of the
classification, and the unregistered method BREW short-circuits. -/
theorem c1_witness :
    ((((Engine.routeHTTPClass rxNone frozenGetX "GET" "/y" Context.reset).2 =
        Classification.notFound) ↔
      pathMatches rxNone frozenGetX.treeOf (normPath "/y") = false) ∧
     (((Engine.routeHTTPClass rxNone frozenGetX "GET" "/y" Context.reset).2 =
        Classification.methodNotAllowed) ↔
      (pathMatches rxNone frozenGetX.treeOf (normPath "/y") = true ∧
       pathMethodMatches rxNone mGET frozenGetX.treeOf (normPath "/y") = false))) ∧
    (Engine.routeHTTPClass rxNone frozenGetX "BREW" "/z" Context.reset).2 =
      Classification.methodNotAllowed :=
  ⟨(c1_dispatch_classification rxNone frozenGetX "GET" "/y").1 mGET rfl,
   (c1_dispatch_classification rxNone frozenGetX "BREW" "/z").2 rfl⟩

/-! ## Claim C8: miss-handler propagation to sub-routers -/

theorem Engine.nfh_setMiss_true (f : Nat) (e : Engine) :
    (Engine.setMiss true f e).nfh = Option.some f := by
  cases e; simp [Engine.setMiss, Engine.nfh]

theorem Engine.mnah_setMiss_false (f : Nat) (e : Engine) :
    (Engine.setMiss false f e).mnah = Option.some f := by
  cases e; simp [Engine.setMiss, Engine.mnah]

theorem Engine.mnah_setMiss_true (f : Nat) (e : Engine) :
    (Engine.setMiss true f e).mnah = e.mnah := by
  cases e; simp [Engine.setMiss, Engine.mnah]

theorem Engine.nfh_setMiss_false (f : Nat) (e : Engine) :
    (Engine.setMiss false f e).nfh = e.nfh := by
  cases e; simp [Engine.setMiss, Engine.nfh]

/- Homomorphism of the recursive miss-handler update over the sub-router
slots of a tree: updating then listing equals listing then mapping the
conditional update. -/
mutual
theorem Node.subEngines_setMissSubs (isNF : Bool) (f : Nat) : ∀ t : Node,
    Node.subEngines (Node.setMissSubs isNF f t) =
      (Node.subEngines t).map (updMiss isNF f)
  | .mk st rl pc wc eps sb => by
    simp [Node.setMissSubs, Node.subEngines, NodeMap.subEngines_setMissSubsMap isNF f st,
      RexList.subEngines_setMissSubsRex isNF f rl, OptParamChild.subEngines_setMissSubsPar isNF f pc,
      OptNode.subEngines_setMissSubsSubsWild isNF f wc, OptEngine.subList_setMiss isNF f sb]

theorem NodeMap.subEngines_setMissSubsMap (isNF : Bool) (f : Nat) : ∀ nm : NodeMap,
    NodeMap.subEngines (NodeMap.setMissSubs isNF f nm) =
      (NodeMap.subEngines nm).map (updMiss isNF f)
  | .nil => by simp [NodeMap.setMissSubs, NodeMap.subEngines]
  | .cons k c tl => by
    simp [NodeMap.setMissSubs, NodeMap.subEngines, Node.subEngines_setMissSubs isNF f c,
      NodeMap.subEngines_setMissSubsMap isNF f tl]

theorem RexList.subEngines_setMissSubsRex (isNF : Bool) (f : Nat) : ∀ rl : RexList,
    RexList.subEngines (RexList.setMissSubs isNF f rl) =
      (RexList.subEngines rl).map (updMiss isNF f)
  | .nil => by simp [RexList.setMissSubs, RexList.subEngines]
  | .cons nm ex c tl => by
    simp [RexList.setMissSubs, RexList.subEngines, Node.subEngines_setMissSubs isNF f c,
      RexList.subEngines_setMissSubsRex isNF f tl]

theorem OptParamChild.subEngines_setMissSubsPar (isNF : Bool) (f : Nat) : ∀ pc : OptParamChild,
    OptParamChild.subEngines (OptParamChild.setMissSubs isNF f pc) =
      (OptParamChild.subEngines pc).map (updMiss isNF f)
  | .none => by simp [OptParamChild.setMissSubs, OptParamChild.subEngines]
  | .some nm c => by
    simp [OptParamChild.setMissSubs, OptParamChild.subEngines,
      Node.subEngines_setMissSubs isNF f c]

theorem OptNode.subEngines_setMissSubsSubsWild (isNF : Bool) (f : Nat) : ∀ wc : OptNode,
    OptNode.subEngines (OptNode.setMissSubs isNF f wc) =
      (OptNode.subEngines wc).map (updMiss isNF f)
  | .none => by simp [OptNode.setMissSubs, OptNode.subEngines]
  | .some c => by
    simp [OptNode.setMissSubs, OptNode.subEngines, Node.subEngines_setMissSubs isNF f c]

theorem OptEngine.subList_setMiss (isNF : Bool) (f : Nat) : ∀ sb : OptEngine,
    OptEngine.subList (OptEngine.setMissSub isNF f sb) =
      (OptEngine.subList sb).map (updMiss isNF f)
  | .none => by simp [OptEngine.setMissSub, OptEngine.subList]
  | .some s => by simp [OptEngine.setMissSub, OptEngine.subList, updMiss]
end

theorem Engine.subEngines_setMiss (isNF : Bool) (f : Nat) (e : Engine) :
    Engine.subEngines (Engine.setMiss isNF f e) =
      (Engine.subEngines e).map (updMiss isNF f) := by
  cases e with
  | mk t nf mna ms hb inl =>
    cases isNF <;>
      simp [Engine.setMiss, Engine.subEngines, Engine.treeOf, Node.subEngines_setMissSubs]

/- Membership of the attached sub-router in the sub-router slots after an
insertion that carries it. -/

theorem NodeMap.subEngines_set_memMap (sE : Engine) (c : Node)
    (hs : sE ∈ Node.subEngines c) : ∀ (nm : NodeMap) (k : String),
    sE ∈ NodeMap.subEngines (NodeMap.set nm k c)
  | .nil, k => by simp [NodeMap.set, NodeMap.subEngines, hs]
  | .cons k' c' tl, k => by
    by_cases hk : k' = k
    · simp only [NodeMap.set, if_pos hk, NodeMap.subEngines, List.mem_append]
      exact Or.inl hs
    · simp only [NodeMap.set, if_neg hk, NodeMap.subEngines, List.mem_append]
      exact Or.inr (NodeMap.subEngines_set_memMap sE c hs tl k)

theorem RexList.subEngines_set_memRex (sE : Engine) (c : Node)
    (hs : sE ∈ Node.subEngines c) : ∀ (rl : RexList) (nm ex : String),
    sE ∈ RexList.subEngines (RexList.set rl nm ex c)
  | .nil, nm, ex => by simp [RexList.set, RexList.subEngines, hs]
  | .cons nm' ex' c' tl, nm, ex => by
    by_cases hk : nm' = nm ∧ ex' = ex
    · simp only [RexList.set, if_pos hk, RexList.subEngines, List.mem_append]
      exact Or.inl hs
    · simp only [RexList.set, if_neg hk, RexList.subEngines, List.mem_append]
      exact Or.inr (RexList.subEngines_set_memRex sE c hs tl nm ex)

theorem subEngines_insert_attach (sE : Engine) :
    ∀ (segs : List Seg) (mask h : Nat) (t : Node),
      sE ∈ Node.subEngines (insertSegs mask h (OptEngine.some sE) segs t)
  | [], mask, h, t => by
    cases t with
    | mk st rl pc wc eps sb =>
      simp [insertSegs, Node.subEngines, OptEngine.subList]
  | Seg.lit s :: rest, mask, h, t => by
    cases t with
    | mk st rl pc wc eps sb =>
      simp only [insertSegs, Node.subEngines, List.mem_append]
      exact Or.inl (Or.inl (Or.inl (Or.inr
        (NodeMap.subEngines_set_memMap sE _ (subEngines_insert_attach sE rest mask h _) st s))))
  | Seg.rex nm ex :: rest, mask, h, t => by
    cases t with
    | mk st rl pc wc eps sb =>
      simp only [insertSegs, Node.subEngines, List.mem_append]
      exact Or.inl (Or.inl (Or.inr
        (RexList.subEngines_set_memRex sE _ (subEngines_insert_attach sE rest mask h _) rl nm ex)))
  | Seg.param nm :: rest, mask, h, t => by
    cases t with
    | mk st rl pc wc eps sb =>
      cases pc with
      | none =>
        simp only [insertSegs, Node.subEngines, List.mem_append, OptParamChild.subEngines]
        exact Or.inl (Or.inr (subEngines_insert_attach sE rest mask h _))
      | some nm' c =>
        simp only [insertSegs, Node.subEngines, List.mem_append, OptParamChild.subEngines]
        exact Or.inl (Or.inr (subEngines_insert_attach sE rest mask h _))
  | Seg.wild :: rest, mask, h, t => by
    cases t with
    | mk st rl pc wc eps sb =>
      cases wc with
      | none =>
        simp only [insertSegs, Node.subEngines, List.mem_append, OptNode.subEngines]
        exact Or.inr (subEngines_insert_attach sE rest mask h _)
      | some c =>
        simp only [insertSegs, Node.subEngines, List.mem_append, OptNode.subEngines]
        exact Or.inr (subEngines_insert_attach sE rest mask h _)

/-- A successful registration that carries a sub-router installs it among
the sub-router slots of the resulting tree; Mount performs exactly this
with the propagated sub-router. -/
theorem handleAttach_installs (e : Engine) (mask : Nat) (pattern : String) (mh : Nat)
    (sE : Engine) (e' : Engine)
    (hok : Engine.handleAttach e mask pattern mh (OptEngine.some sE) = Except.ok e') :
    sE ∈ Engine.subEngines e' := by
  unfold Engine.handleAttach at hok
  split at hok
  · cases hok
  · rcases hpp : parsePattern pattern with msg | segs
    · rw [hpp] at hok
      cases hok
    · rw [hpp] at hok
      dsimp only at hok
      simp only [Except.ok.injEq] at hok
      subst hok
      unfold Engine.subEngines
      rw [Engine.treeOf_withTree]
      exact subEngines_insert_attach sE segs mask mh _

/-- C8: the transformation Mount applies to a mounted sub-router hands the
parent overrides to a sub-router lacking its own and leaves an existing
override untouched; the propagated sub-router is installed in the tree of
the successful registration; and the NotFound and MethodNotAllowed setters
store the override and update exactly the sub-routers lacking their own,
leaving every other sub-router unchanged. -/
theorem c8_override_propagation (e s : Engine) (f g : Nat) :
    (Engine.nfh s = Option.none → Engine.nfh e = Option.some f →
      Engine.nfh (mountPropagate e s) = Option.some f) ∧
    (Engine.nfh s = Option.some g → Engine.nfh (mountPropagate e s) = Option.some g) ∧
    (Engine.mnah s = Option.none → Engine.mnah e = Option.some f →
      Engine.mnah (mountPropagate e s) = Option.some f) ∧
    (Engine.mnah s = Option.some g → Engine.mnah (mountPropagate e s) = Option.some g) ∧
    (∀ mask pattern mh e', Engine.handleAttach e mask pattern mh
        (OptEngine.some (mountPropagate e s)) = Except.ok e' →
      mountPropagate e s ∈ Engine.subEngines e') ∧
    (Engine.nfh (Engine.setMiss true f e) = Option.some f) ∧
    (Engine.subEngines (Engine.setMiss true f e) =
      (Engine.subEngines e).map (updMiss true f)) ∧
    (Engine.mnah (Engine.setMiss false f e) = Option.some f) ∧
    (Engine.subEngines (Engine.setMiss false f e) =
      (Engine.subEngines e).map (updMiss false f)) := by
  refine ⟨?_, ?_, ?_, ?_, ?_, ?_, ?_, ?_, ?_⟩
  · intro hs he
    unfold mountPropagate
    rw [hs, he]
    dsimp only
    rcases h1 : (Engine.setMiss true f s).mnah with _ | g1 <;>
      rcases h2 : e.mnah with _ | g2 <;>
        simp [Engine.nfh_setMiss_false, Engine.nfh_setMiss_true]
  · intro hs
    unfold mountPropagate
    rw [hs]
    dsimp only
    rcases h1 : s.mnah with _ | g1 <;> rcases h2 : e.mnah with _ | g2 <;>
      simp [Engine.nfh_setMiss_false, hs]
  · intro hs he
    unfold mountPropagate
    rcases h1 : s.nfh with _ | g1 <;> rcases h2 : e.nfh with _ | g2 <;>
      dsimp only <;>
        simp [Engine.mnah_setMiss_true, Engine.mnah_setMiss_false, hs, he]
  · intro hs
    unfold mountPropagate
    rcases h1 : s.nfh with _ | g1 <;> rcases h2 : e.nfh with _ | g2 <;>
      dsimp only <;>
        simp [Engine.mnah_setMiss_true, Engine.mnah_setMiss_false, hs]
  · intro mask pattern mh e' hok
    exact handleAttach_installs e mask pattern mh (mountPropagate e s) e' hok
  · exact Engine.nfh_setMiss_true f e
  · exact Engine.subEngines_setMiss true f e
  · exact Engine.mnah_setMiss_false f e
  · exact Engine.subEngines_setMiss false f e

/-- Parent with overrides for the C8 witness. -/
def parentOverrides : Engine :=
  Engine.mk emptyNode (Option.some 41) (Option.some 42) [] false false

/-- Sub-router carrying its own overrides for the C8 witness. -/
def subOwn : Engine :=
  Engine.mk emptyNode (Option.some 51) (Option.some 52) [] false false

/-- C8 witness: a bare sub-router inherits both overrides of the parent, a
sub-router with its own overrides keeps them, and the propagated sub-router
sits in the tree after the wildcard registration Mount performs. -/
theorem c8_witness :
    Engine.nfh (mountPropagate parentOverrides Engine.new) = Option.some 41 ∧
    Engine.mnah (mountPropagate parentOverrides Engine.new) = Option.some 42 ∧
    Engine.nfh (mountPropagate parentOverrides subOwn) = Option.some 51 ∧
    Engine.mnah (mountPropagate parentOverrides subOwn) = Option.some 52 ∧
    mountPropagate parentOverrides Engine.new ∈
      Engine.subEngines (Engine.ofExcept (Engine.handleAttach parentOverrides
        (mALL ||| mSTUB) "/api/*" 100
        (OptEngine.some (mountPropagate parentOverrides Engine.new)))) ∧
    Engine.subEngines (Engine.setMiss true 41 parentOverrides) =
      (Engine.subEngines parentOverrides).map (updMiss true 41) := by
  refine ⟨?_, ?_, ?_, ?_, ?_, ?_⟩
  · exact (c8_override_propagation parentOverrides Engine.new 41 0).1 rfl rfl
  · exact (c8_override_propagation parentOverrides Engine.new 42 0).2.2.1 rfl rfl
  · exact (c8_override_propagation parentOverrides subOwn 0 51).2.1 rfl
  · exact (c8_override_propagation parentOverrides subOwn 0 52).2.2.2.1 rfl
  · exact (c8_override_propagation parentOverrides Engine.new 41 0).2.2.2.2.1
      (mALL ||| mSTUB) "/api/*" 100 _ rfl
  · exact (c8_override_propagation parentOverrides Engine.new 41 0).2.2.2.2.2.2.1

end Penguin
